import Mathlib

/-!
Verification of the AST-lowering core (`interp/ast.go`) of the yaegi seed
interpreter, together with a spec-modelled fragment of the package loader.

Conventions of the embedding:
* Go `int` values that serve as enumeration tags (`Kind`, `Action`) are
  embedded as `Int`, with one named constant per `iota` constant of the source.
* Go strings that flow through `strconv.ParseInt` are embedded as `List Nat`,
  the list of their bytes (Go iterates `[]byte(s)`); byte values are written
  as decimal codes with the character in a comment.
* Pointer-linked nodes are embedded as an arena (`List NodeData`); a node
  reference is its position in the arena.
* Go panics are embedded as `Option.none` / a dedicated outcome constructor;
  fallible results are `Option`/`Except` values.
-/

/-- Kind is the Go type `type Kind int` of interp/ast.go. -/
abbrev Kind := Int

namespace Kind

/-- Undef is the first `iota` constant of the Kind enumeration. -/
def Undef : Kind := 0

def ArrayType : Kind := 1

def AssignStmt : Kind := 2

def BasicLit : Kind := 3

def BinaryExpr : Kind := 4

def BlockStmt : Kind := 5

def BranchStmt : Kind := 6

def Break : Kind := 7

def CallExpr : Kind := 8

def CompositeLit : Kind := 9

def Continue : Kind := 10

def ExprStmt : Kind := 11

def Fallthrough : Kind := 12

def Field : Kind := 13

def FieldList : Kind := 14

def File : Kind := 15

def For0 : Kind := 16

def For1 : Kind := 17

def For2 : Kind := 18

def For3 : Kind := 19

def For4 : Kind := 20

def ForRangeStmt : Kind := 21

def ForStmt : Kind := 22

def FuncDecl : Kind := 23

def FuncType : Kind := 24

def Goto : Kind := 25

def Ident : Kind := 26

def If0 : Kind := 27

def If1 : Kind := 28

def If2 : Kind := 29

def If3 : Kind := 30

def IfStmt : Kind := 31

def IncDecStmt : Kind := 32

def IndexExpr : Kind := 33

def ParenExpr : Kind := 34

def RangeStmt : Kind := 35

def ReturnStmt : Kind := 36

end Kind

/-- kinds is the `var kinds = [...]string` table of interp/ast.go, in `iota`
order (the source spells the `CompositeLit` entry "CompositLit"). -/
def kinds : List String :=
  ["Undef", "ArrayType", "AssignStmt", "BasicLit", "BinaryExpr", "BlockStmt",
   "BranchStmt", "Break", "CallExpr", "CompositLit", "Continue", "ExprStmt",
   "Fallthrough", "Field", "FieldList", "File", "For0", "For1", "For2", "For3",
   "For4", "ForRangeStmt", "ForStmt", "FuncDecl", "FuncType", "Goto", "Ident",
   "If0", "If1", "If2", "If3", "IfStmt", "IncDecStmt", "IndexExpr", "ParenExpr",
   "RangeStmt", "ReturnStmt"]

/-- kindString is `func (k Kind) String() string` of interp/ast.go.
The source reads `kinds[k]` under the guard `0 <= k && k <= Kind(len(kinds))`;
the Go expression `kinds[k]` panics when `k` is out of range, which is embedded
as `Option.none` (the in-range read is `kinds[k.toNat]?`, which is `some` for
every index below the table length). -/
def kindString (k : Int) : Option String :=
  let s : Option String :=
    if 0 ≤ k ∧ k ≤ (kinds.length : Int) then kinds[k.toNat]? else some ""
  s.map fun v => if v = "" then "kind(" ++ toString k ++ ")" else v

/-- GoAction is the Go type `type Action int` of interp/ast.go (the bare name
`Action` is taken by Mathlib); its constants keep their source names under the
`Action` namespace. -/
abbrev GoAction := Int

namespace Action

/-- Nop is the first `iota` constant of the Action enumeration. -/
def Nop : GoAction := 0

def ArrayLit : GoAction := 1

def Assign : GoAction := 2

def AssignX : GoAction := 3

def Add : GoAction := 4

def And : GoAction := 5

def Call : GoAction := 6

def Dec : GoAction := 7

def Equal : GoAction := 8

def Greater : GoAction := 9

def GetIndex : GoAction := 10

def Inc : GoAction := 11

def Lower : GoAction := 12

def Println : GoAction := 13

def Range : GoAction := 14

def Return : GoAction := 15

def Sub : GoAction := 16

end Action

/-- actions is the `var actions = [...]string` table of interp/ast.go, in
`iota` order. -/
def actions : List String :=
  ["nop", "arraylit", "=", "=", "+", "&", "call", "--", "==", ">", "getindex",
   "++", "<", "println", "range", "return", "-"]

/-- actionString is `func (a Action) String() string` of interp/ast.go, with
the same embedding of the out-of-range panic as `kindString`. -/
def actionString (a : Int) : Option String :=
  let s : Option String :=
    if 0 ≤ a ∧ a ≤ (actions.length : Int) then actions[a.toNat]? else some ""
  s.map fun v => if v = "" then "action(" ++ toString a ++ ")" else v

/-!
Embedding of `strconv.ParseInt(s, 0, 0)` from the Go standard library, the
only call the lowering makes on literal lexemes (interp/ast.go line 197).
Strings are byte lists; `base` is the literal `0` of the call site, so the
code paths guarded by `base == 0` are taken throughout, and `bitSize` 0 means
the platform `int` size, 64.  Both error kinds of the Go API (syntax and
range) make the call site take its `else` branch, so errors are collapsed to
`Option.none`.
-/

/-- lowerByte is strconv's `func lower(c byte) byte { return c | ('x' - 'X') }`,
the ASCII-case fold by setting bit 5. -/
def lowerByte (b : Nat) : Nat := b ||| 32

/-- digitValue is the digit classification of the loop body of
`strconv.ParseUint`: bytes 48-57 ("0"-"9") carry their decimal value, letters
(after `lower`) carry 10-35, anything else is a syntax error. -/
def digitValue (b : Nat) : Option Nat :=
  if 48 ≤ b ∧ b ≤ 57 then some (b - 48)
  else if 97 ≤ lowerByte b ∧ lowerByte b ≤ 122 then some (lowerByte b - 97 + 10)
  else none

/-- baseDetect is the `base == 0` branch of `strconv.ParseUint`: a leading
byte 48 ("0") followed by b/B (98/66), o/O (111/79) or x/X (120/88) and at
least one more byte selects base 2/8/16 and drops the prefix; otherwise a
leading "0" selects the legacy octal base 8 and drops only the "0"; otherwise
base 10.  (The b/o/x tests are `lower(s[1]) == 'b'` etc. in the source.) -/
def baseDetect (s : List Nat) : Nat × List Nat :=
  match s with
  | b0 :: tl =>
    if b0 = 48 then
      match tl with
      | c :: rest =>
        if rest ≠ [] ∧ lowerByte c = 98 then (2, rest)
        else if rest ≠ [] ∧ lowerByte c = 111 then (8, rest)
        else if rest ≠ [] ∧ lowerByte c = 120 then (16, rest)
        else (8, tl)
      | [] => (8, [])
    else (10, s)
  | [] => (10, s)

/-- maxUint64 is `1<<64 - 1`, the `maxVal` of `strconv.ParseUint` at
`bitSize` 64. -/
def maxUint64 : Nat := 2 ^ 64 - 1

/-- parseUintLoop is the accumulation loop of `strconv.ParseUint`.  With
`base == 0` at the call site, byte 95 ("_") is skipped and flagged; other
bytes must be digits below the base.  The source detects overflow with
`n >= cutoff` before the multiply and with `n1 < n || n1 > maxVal` after the
add; over `Nat` (no wraparound) the pair is exactly the two comparisons kept
here.  The result carries the accumulator and the underscores flag. -/
def parseUintLoop (base cutoff maxVal : Nat) :
    List Nat → Nat → Bool → Option (Nat × Bool)
  | [], n, us => some (n, us)
  | c :: cs, n, us =>
    if c = 95 then parseUintLoop base cutoff maxVal cs n true
    else
      match digitValue c with
      | none => none
      | some d =>
        if base ≤ d then none
        else if cutoff ≤ n then none
        else if maxVal < n * base + d then none
        else parseUintLoop base cutoff maxVal cs (n * base + d) us

/-- Saw is the `saw` rune of strconv's `underscoreOK`: `^` (start), `0`
(digit or base prefix), `_` (underscore), `!` (other). -/
inductive Saw where
  | start
  | digit
  | under
  | other
deriving DecidableEq

/-- underscoreOKLoop is the scanning loop of strconv's `underscoreOK`:
decimal digits (and, for hex literals, the letters a-f after `lower`) are
digits; an underscore must follow a digit and, at the end of the scan and
before any non-digit, must be followed by a digit. -/
def underscoreOKLoop (hex : Bool) : List Nat → Saw → Bool
  | [], saw => saw ≠ Saw.under
  | c :: cs, saw =>
    if (48 ≤ c ∧ c ≤ 57) ∨ (hex ∧ 97 ≤ lowerByte c ∧ lowerByte c ≤ 102) then
      underscoreOKLoop hex cs Saw.digit
    else if c = 95 then
      if saw ≠ Saw.digit then false else underscoreOKLoop hex cs Saw.under
    else if saw = Saw.under then false
    else underscoreOKLoop hex cs Saw.other

/-- underscoreOK is strconv's `underscoreOK(s)`: after an optional sign
(43 "+" or 45 "-") and an optional two-byte base prefix (which counts as a
digit), every underscore must sit between digits. -/
def underscoreOK (s : List Nat) : Bool :=
  let s1 := match s with
            | c :: rest => if c = 45 ∨ c = 43 then rest else c :: rest
            | [] => []
  match s1 with
  | c0 :: c1 :: rest =>
    if c0 = 48 ∧ (lowerByte c1 = 98 ∨ lowerByte c1 = 111 ∨ lowerByte c1 = 120) then
      underscoreOKLoop (lowerByte c1 = 120) rest Saw.digit
    else underscoreOKLoop false (c0 :: c1 :: rest) Saw.start
  | s2 => underscoreOKLoop false s2 Saw.start

/-- parseUintGo is `strconv.ParseUint(s, 0, 64)` on the sign-stripped byte
string: empty input is a syntax error; the base and digits come from
`baseDetect`; `cutoff` is `maxUint64/base + 1` (the per-base `switch` of the
source computes exactly this); when underscores were seen they are checked
with `underscoreOK` on the input string. -/
def parseUintGo (s : List Nat) : Option Nat :=
  match s with
  | [] => none
  | _ =>
    let bd := baseDetect s
    match parseUintLoop bd.1 (maxUint64 / bd.1 + 1) maxUint64 bd.2 0 false with
    | none => none
    | some r => if r.2 ∧ underscoreOK s = false then none else some r.1

/-- parseIntGo is `strconv.ParseInt(s, 0, 0)`: pick off a leading sign, parse
the rest as unsigned, and range-check against `1 << 63`.  (On a `ParseUint`
range error the source falls through with `un = maxVal` and then necessarily
fails this range check, so collapsing both to `none` is exact.) -/
def parseIntGo (s : List Nat) : Option Int :=
  match s with
  | [] => none
  | c :: rest =>
    let neg := c = 45
    let body := if c = 43 ∨ c = 45 then rest else c :: rest
    match parseUintGo body with
    | none => none
    | some un =>
      if ¬neg ∧ 2 ^ 63 ≤ un then none
      else if neg ∧ 2 ^ 63 < un then none
      else some (if neg then -(un : Int) else (un : Int))

/-!
Embedding of the node graph and of `Ast` (interp/ast.go lines 156-342).
Nodes live in an arena: a node reference is its position in the `nodes`
list, so `anc`, `start` and the `child` list hold positions.  The `run`
field of the Go node is `builtin[action]`, a table indexed by the node's
action and defined outside this file's sources; it is a function of the
`action` field and is not repeated here, and the `anode` argument of
`addChild` is dropped by the constructor on line 334 of the source.
-/

/-- Val is the dynamic value held by a node's `val` cell (`interface{}` in
the source): nothing yet, a parsed integer, or a literal byte string. -/
inductive Val where
  | undef
  | int (n : Int)
  | str (s : List Nat)
deriving DecidableEq

/-- NodeData is the Go `Node` struct as far as ast.go populates it. -/
structure NodeData where
  anc : Option Nat
  index : Nat
  kind : Kind
  action : GoAction
  ident : List Nat
  val : Val
  start : Nat
  child : List Nat
deriving DecidableEq

/-- LowerState is the mutable state of one `Ast` run: the shared `index`
counter, the node arena, the `root` pointer, the definition map `def` (an
association list, most recent binding first) and the ancestor stack `st`. -/
structure LowerState where
  index : Nat
  nodes : List NodeData
  root : Option Nat
  defs : List (List Nat × Nat)
  stack : List Nat
deriving DecidableEq

/-- initState is the state at the top of `Ast`: `index := 0`, no nodes, no
root, an empty definition map and an empty stack. -/
def initState : LowerState :=
  { index := 0, nodes := [], root := none, defs := [], stack := [] }

/-- appendChild performs `anc.Child = append(anc.Child, n)` on the arena:
the node at position `a` gets `c` appended to its `child` list.  In the
source `anc` is always a live node; an out-of-range `a` leaves the arena
unchanged. -/
def appendChild (nodes : List NodeData) (a c : Nat) : List NodeData :=
  match nodes[a]? with
  | some nd => nodes.set a { nd with child := nd.child ++ [c] }
  | none => nodes

/-- addChild is `func addChild(root, anc, index, kind, action, anode)` of
interp/ast.go: increment the shared index, build the node with `Start`
pointing at itself, then either set the root (no ancestor) or append to the
ancestor's children.  Returns the new state and the new node's position. -/
def addChild (s : LowerState) (anc : Option Nat) (kind : Kind)
    (action : GoAction) : LowerState × Nat :=
  let idx := s.index + 1
  let id := s.nodes.length
  let n : NodeData :=
    { anc := anc, index := idx, kind := kind, action := action, ident := [],
      val := Val.undef, start := id, child := [] }
  match anc with
  | none => ({ s with index := idx, nodes := s.nodes ++ [n], root := some id }, id)
  | some a => ({ s with index := idx, nodes := appendChild (s.nodes ++ [n]) a id }, id)

/-- setIdent performs `n.ident = ...` on the node at position `id`. -/
def setIdent (s : LowerState) (id : Nat) (ident : List Nat) : LowerState :=
  match s.nodes[id]? with
  | some nd => { s with nodes := s.nodes.set id { nd with ident := ident } }
  | none => s

/-- setIdentVal performs `n.ident = ...; n.val = ...` on the node at
position `id` (the `BasicLit` case). -/
def setIdentVal (s : LowerState) (id : Nat) (ident : List Nat) (val : Val) :
    LowerState :=
  match s.nodes[id]? with
  | some nd => { s with nodes := s.nodes.set id { nd with ident := ident, val := val } }
  | none => s

/-- GoToken is the fragment of `go/token.Token` that the lowering switches
on; `tOTHER` stands for every other token value (the `switch` statements of
the source have no `default` case, leaving the zero value in place). -/
inductive GoToken where
  | tADD
  | tSUB
  | tAND
  | tEQL
  | tGTR
  | tLSS
  | tBREAK
  | tCONTINUE
  | tGOTO
  | tFALLTHROUGH
  | tINC
  | tDEC
  | tOTHER
deriving DecidableEq

/-- SurfaceNode is the fragment of each `go/ast` node that the `Ast` switch
inspects: for statements the presence of their optional clauses, for
expressions the operator token or lexeme, for assignment the operand counts.
The `unknown` constructor is the `default` case of the switch. -/
inductive SurfaceNode where
  | arrayType
  | assignStmt (lhsLen rhsLen : Nat)
  | basicLit (value : List Nat)
  | binaryExpr (op : GoToken)
  | blockStmt
  | branchStmt (tok : GoToken)
  | callExpr
  | compositeLit
  | exprStmt
  | field
  | fieldList
  | file
  | forStmt (hasInit hasCond hasPost : Bool)
  | funcDecl (name : List Nat)
  | funcType
  | ident (name : List Nat)
  | ifStmt (hasInit hasElse : Bool)
  | incDecStmt (tok : GoToken)
  | indexExpr
  | parenExpr
  | rangeStmt
  | returnStmt
  | unknown
deriving DecidableEq

/-- assignAction is the action choice of the `*ast.AssignStmt` case:
`AssignX` iff there are several left-hand sides and exactly one right-hand
side. -/
def assignAction (lhsLen rhsLen : Nat) : GoAction :=
  if 1 < lhsLen ∧ rhsLen = 1 then Action.AssignX else Action.Assign

/-- basicLitValue is the `val` population of the `*ast.BasicLit` case: the
result of `strconv.ParseInt(a.Value, 0, 0)` when it succeeds, the original
lexeme otherwise. -/
def basicLitValue (v : List Nat) : Val :=
  match parseIntGo v with
  | some n => Val.int n
  | none => Val.str v

/-- binaryAction is the operator switch of the `*ast.BinaryExpr` case; an
operator outside the six handled tokens leaves the zero value `Nop`. -/
def binaryAction (op : GoToken) : GoAction :=
  match op with
  | GoToken.tADD => Action.Add
  | GoToken.tAND => Action.And
  | GoToken.tEQL => Action.Equal
  | GoToken.tGTR => Action.Greater
  | GoToken.tLSS => Action.Lower
  | GoToken.tSUB => Action.Sub
  | _ => Action.Nop

/-- branchKind is the token switch of the `*ast.BranchStmt` case; a token
other than `break`/`continue` (i.e. `goto` or `fallthrough`) leaves the zero
value `Undef`. -/
def branchKind (tok : GoToken) : Kind :=
  match tok with
  | GoToken.tBREAK => Kind.Break
  | GoToken.tCONTINUE => Kind.Continue
  | _ => Kind.Undef

/-- forKind is the shape classification of the `*ast.ForStmt` case: the
source tests `a.Cond == nil` first and only then distinguishes init/post. -/
def forKind (hasInit hasCond hasPost : Bool) : Kind :=
  if hasCond = false then Kind.For0
  else if hasInit = false ∧ hasPost = false then Kind.For1
  else if hasInit = true ∧ hasPost = false then Kind.For2
  else if hasInit = false ∧ hasPost = true then Kind.For3
  else Kind.For4

/-- ifKind is the shape classification of the `*ast.IfStmt` case. -/
def ifKind (hasInit hasElse : Bool) : Kind :=
  if hasInit = false ∧ hasElse = false then Kind.If0
  else if hasInit = false ∧ hasElse = true then Kind.If1
  else if hasElse = false then Kind.If2
  else Kind.If3

/-- incDecAction is the token switch of the `*ast.IncDecStmt` case. -/
def incDecAction (tok : GoToken) : GoAction :=
  match tok with
  | GoToken.tINC => Action.Inc
  | GoToken.tDEC => Action.Dec
  | _ => Action.Nop

/-- pushNew is the common `st.push(addChild(&root, anc, &index, k, a, &node))`
pattern of the switch cases. -/
def pushNew (s : LowerState) (anc : Option Nat) (kind : Kind)
    (action : GoAction) : LowerState :=
  let r := addChild s anc kind action
  { r.1 with stack := r.2 :: r.1.stack }

/-- inspectStep is the body of the `ast.Inspect` callback of `Ast`: `anc` is
the top of the ancestor stack; the `nil` sentinel (post-visit) pops the
stack; every other surface node is dispatched through the type switch.  The
`pop` of the source panics on an empty stack; `ast.Inspect` always balances
visits, and a pop on an empty stack is embedded as leaving it empty. -/
def inspectStep (s : LowerState) (ev : Option SurfaceNode) : LowerState :=
  let anc := s.stack.head?
  match ev with
  | none => { s with stack := s.stack.tail }
  | some sn =>
    match sn with
    | SurfaceNode.arrayType => pushNew s anc Kind.ArrayType Action.Nop
    | SurfaceNode.assignStmt lhs rhs =>
      pushNew s anc Kind.AssignStmt (assignAction lhs rhs)
    | SurfaceNode.basicLit v =>
      let r := addChild s anc Kind.BasicLit Action.Nop
      let s1 := setIdentVal r.1 r.2 v (basicLitValue v)
      { s1 with stack := r.2 :: s1.stack }
    | SurfaceNode.binaryExpr op => pushNew s anc Kind.BinaryExpr (binaryAction op)
    | SurfaceNode.blockStmt => pushNew s anc Kind.BlockStmt Action.Nop
    | SurfaceNode.branchStmt tok => pushNew s anc (branchKind tok) Action.Nop
    | SurfaceNode.callExpr => pushNew s anc Kind.CallExpr Action.Call
    | SurfaceNode.compositeLit => pushNew s anc Kind.CompositeLit Action.ArrayLit
    | SurfaceNode.exprStmt => pushNew s anc Kind.ExprStmt Action.Nop
    | SurfaceNode.field => pushNew s anc Kind.Field Action.Nop
    | SurfaceNode.fieldList => pushNew s anc Kind.FieldList Action.Nop
    | SurfaceNode.file => pushNew s anc Kind.File Action.Nop
    | SurfaceNode.forStmt i c p => pushNew s anc (forKind i c p) Action.Nop
    | SurfaceNode.funcDecl name =>
      let r := addChild s anc Kind.FuncDecl Action.Nop
      { r.1 with defs := (name, r.2) :: r.1.defs, stack := r.2 :: r.1.stack }
    | SurfaceNode.funcType => pushNew s anc Kind.FuncType Action.Nop
    | SurfaceNode.ident name =>
      let r := addChild s anc Kind.Ident Action.Nop
      let s1 := setIdent r.1 r.2 name
      { s1 with stack := r.2 :: s1.stack }
    | SurfaceNode.ifStmt i e => pushNew s anc (ifKind i e) Action.Nop
    | SurfaceNode.incDecStmt tok =>
      pushNew s anc Kind.IncDecStmt (incDecAction tok)
    | SurfaceNode.indexExpr => pushNew s anc Kind.IndexExpr Action.GetIndex
    | SurfaceNode.parenExpr => pushNew s anc Kind.ParenExpr Action.Nop
    | SurfaceNode.rangeStmt =>
      let r1 := addChild s anc Kind.ForRangeStmt Action.Nop
      let r2 := addChild r1.1 (some r1.2) Kind.RangeStmt Action.Range
      { r2.1 with stack := r2.2 :: r2.1.stack }
    | SurfaceNode.returnStmt => pushNew s anc Kind.ReturnStmt Action.Return
    | SurfaceNode.unknown => pushNew s anc Kind.Undef Action.Nop

/-- runLower is the full `ast.Inspect(f, ...)` traversal: the callback run
over the stream of visits (pre-visits carry the surface node, post-visits
are the `nil` sentinel), starting from the state at the top of `Ast`. -/
def runLower (evs : List (Option SurfaceNode)) : LowerState :=
  evs.foldl inspectStep initState

/-- AstOutcome is how a call to `Ast` ends: the function either panics (its
signature `func Ast(src string) (*Node, Def)` has no error result) or
returns the root and the definition map. -/
inductive AstOutcome where
  | panicked (err : String)
  | returned (root : Option Nat) (nodes : List NodeData) (defs : List (List Nat × Nat))
deriving DecidableEq

/-- Ast is `func Ast(src string)` of interp/ast.go.  The surface parser is
outside the covered sources, so its result is the input here: either a parse
error carrying a message, or the visit stream that `ast.Inspect` feeds to
the callback.  On a parse error the source executes `panic(err)`. -/
def Ast (parsed : Except String (List (Option SurfaceNode))) : AstOutcome :=
  match parsed with
  | Except.error err => AstOutcome.panicked err
  | Except.ok evs =>
    let s := runLower evs
    AstOutcome.returned s.root s.nodes s.defs

/-- loweredNode projects, out of one lowering step, the node the step pushed
for the visited surface node: the freshly pushed stack top, read back from
the arena.  Used to state the per-case claims. -/
def loweredNode (s : LowerState) (sn : SurfaceNode) : Option NodeData :=
  (inspectStep s (some sn)).stack.head?.bind
    fun id => (inspectStep s (some sn)).nodes[id]?

/-!
Spec-side definitions.  `specIntLiteral` transcribes the claim's own wording
("a signed-integer literal in base 10 or with a 0x/0o/0b prefix") and is
used only to refute the claim as stated; `goIntLiteral` is the amended
wording: after an optional sign, a decimal digit run, a legacy leading-0
octal run, or a 0x/0o/0b-prefixed digit run of that base, with single
underscores allowed between digits (and directly after a base prefix),
whose value fits the signed 64-bit range.
-/

/-- isDecByte holds on the bytes of "0"-"9". -/
def isDecByte (b : Nat) : Bool := if 48 ≤ b ∧ b ≤ 57 then true else false

/-- isOctByte holds on the bytes of "0"-"7". -/
def isOctByte (b : Nat) : Bool := if 48 ≤ b ∧ b ≤ 55 then true else false

/-- isBinByte holds on the bytes of "0" and "1". -/
def isBinByte (b : Nat) : Bool := if b = 48 ∨ b = 49 then true else false

/-- isHexByte holds on the bytes of "0"-"9", "a"-"f" and "A"-"F". -/
def isHexByte (b : Nat) : Bool :=
  if (48 ≤ b ∧ b ≤ 57) ∨ (97 ≤ b ∧ b ≤ 102) ∨ (65 ≤ b ∧ b ≤ 70) then true
  else false

/-- byteVal is the usual value of a digit byte (either case for letters);
junk on non-digits, used only under a digit-class guard. -/
def byteVal (b : Nat) : Nat :=
  if 48 ≤ b ∧ b ≤ 57 then b - 48
  else if 97 ≤ b ∧ b ≤ 122 then b - 97 + 10
  else if 65 ≤ b ∧ b ≤ 90 then b - 65 + 10
  else 0

/-- sepDigitsAux matches, in the state "a digit was just read", the grammar
tail `("_"? digit)*`: underscores separate digits, never doubled, never
trailing. -/
def sepDigitsAux (isD : Nat → Bool) : List Nat → Bool
  | [] => true
  | b :: cs =>
    if b = 95 then
      match cs with
      | [] => false
      | c :: cs2 => isD c && sepDigitsAux isD cs2
    else isD b && sepDigitsAux isD cs

/-- sepDigits matches the grammar `digit ("_"? digit)*`. -/
def sepDigits (isD : Nat → Bool) : List Nat → Bool
  | [] => false
  | c :: cs => isD c && sepDigitsAux isD cs

/-- prefDigits matches what may follow a base prefix: an optional leading
underscore (the prefix counts as a digit) and then `digit ("_"? digit)*`. -/
def prefDigits (isD : Nat → Bool) : List Nat → Bool
  | [] => false
  | b :: cs => if b = 95 then sepDigits isD cs else sepDigits isD (b :: cs)

/-- litValue is the numeric value of a digit run, underscores skipped. -/
def litValue (base : Nat) (cs : List Nat) : Nat :=
  (cs.filter fun b => b ≠ 95).foldl (fun n b => n * base + byteVal b) 0

/-- goIntBody is the amended literal shape after the optional sign: one of
the four digit-run forms (prefixed runs tried in the b/o/x order of the
base detection), whose value must not exceed `limit`. -/
def goIntBody (limit : Nat) (body : List Nat) : Bool :=
  match body with
  | [] => false
  | b0 :: tl =>
    if b0 = 48 then
      match tl with
      | [] => true
      | p :: ds =>
        if (p = 98 ∨ p = 66) ∧ ds ≠ [] then
          prefDigits isBinByte ds && decide (litValue 2 ds ≤ limit)
        else if (p = 111 ∨ p = 79) ∧ ds ≠ [] then
          prefDigits isOctByte ds && decide (litValue 8 ds ≤ limit)
        else if (p = 120 ∨ p = 88) ∧ ds ≠ [] then
          prefDigits isHexByte ds && decide (litValue 16 ds ≤ limit)
        else sepDigitsAux isOctByte tl && decide (litValue 8 tl ≤ limit)
    else sepDigits isDecByte body && decide (litValue 10 body ≤ limit)

/-- goIntLiteral is the amended literal shape: an optional sign (43 "+" /
45 "-"), then a decimal digit run, a legacy leading-0 octal run, or a
0b/0o/0x-prefixed digit run of that base, with single underscores permitted
between digits (and directly after a base prefix), whose value fits the
signed 64-bit range (2^63 - 1, or 2^63 under a minus sign). -/
def goIntLiteral (s : List Nat) : Bool :=
  match s with
  | [] => false
  | c :: rest =>
    goIntBody (if c = 45 then 2 ^ 63 else 2 ^ 63 - 1)
      (if c = 43 ∨ c = 45 then rest else c :: rest)

/-- specIntLiteral is the claim's own literal shape, verbatim: an optional
sign, then either plain base-10 digits or a 0x/0o/0b prefix followed by
digits of that base. -/
def specIntLiteral (s : List Nat) : Bool :=
  match s with
  | [] => false
  | c :: rest =>
    let body := if c = 43 ∨ c = 45 then rest else c :: rest
    match body with
    | 48 :: 120 :: ds => !ds.isEmpty && ds.all isHexByte
    | 48 :: 111 :: ds => !ds.isEmpty && ds.all isOctByte
    | 48 :: 98 :: ds => !ds.isEmpty && ds.all isBinByte
    | body2 => !body2.isEmpty && body2.all isDecByte

/-!
Spec-modelled package loader fragment.  The loader sources are not under
the covered tree (only the test `example/pkg/pkg_test.go` is), so the
package-identity contract is modelled from the spec: every source file of a
resolved directory must declare the same package name, and on the first
mismatch the loader fails with the positioned diagnostic
`<line>:<col>: import "<path>" error: found packages <A> and <B> in <dir>`.
-/

/-- importErrorMsg is the spec's import-error format
`<line>:<col>: import "<path>" error: <detail>`. -/
def importErrorMsg (line col : Nat) (path detail : String) : String :=
  toString line ++ ":" ++ toString col ++ ": import \"" ++ path ++
    "\" error: " ++ detail

/-- foundPackagesMsg is the spec's detail for a directory with inconsistent
package declarations. -/
def foundPackagesMsg (a b dir : String) : String :=
  "found packages " ++ a ++ " and " ++ b ++ " in " ++ dir

/-- pkgScan walks the remaining files' package names; the first name that
differs from the first file's name is the clash reported. -/
def pkgScan (first : String) : List (String × String) → Except String String
  | [] => Except.ok first
  | (_, p) :: rest =>
    if p = first then pkgScan first rest else Except.error p

/-- Modelled from the spec: the loader's package-identity check over the
file set of the resolved directory, given as (file name, declared package)
pairs.  All files must declare one package name, returned on success; two
distinct names fail with the positioned `found packages` diagnostic.  (The
empty directory case is not specified and not used by any claim.) -/
def loadPackageName (line col : Nat) (path dir : String)
    (files : List (String × String)) : Except String String :=
  match files with
  | [] => Except.ok ""
  | (_, p) :: rest =>
    match pkgScan p rest with
    | Except.ok name => Except.ok name
    | Except.error other =>
      Except.error (importErrorMsg line col path (foundPackagesMsg p other dir))

/-- rangeLowered names the two `addChild` calls of the `*ast.RangeStmt` case
(the synthetic `ForRangeStmt` parent, then its `RangeStmt` child), for an
arbitrary ancestor; the case of `inspectStep` is `rangeLowered s anc`
followed by pushing the child.  Used to state lemmas about that case. -/
def rangeLowered (s : LowerState) (anc : Option Nat) : LowerState × Nat :=
  let r1 := addChild s anc Kind.ForRangeStmt Action.Nop
  addChild r1.1 (some r1.2) Kind.RangeStmt Action.Range

/-- DigitsOK states that every byte of a digit run is an underscore or a
digit below the base, exactly the bytes the `strconv` loop accepts. -/
def DigitsOK (base : Nat) (ds : List Nat) : Prop :=
  ∀ b ∈ ds, b = 95 ∨ ∃ d, digitValue b = some d ∧ d < base

/-- loopVal is the mathematical value accumulated by the `strconv` loop over
a digit run (underscores skipped), with no overflow cutoffs. -/
def loopVal (base : Nat) : List Nat → Nat → Nat
  | [], n => n
  | b :: ds, n =>
    if b = 95 then loopVal base ds n
    else loopVal base ds (n * base + (digitValue b).getD 0)

/-!
Invariants of the lowering state used by the run-level claims.
-/

/-- IndexInv is the bookkeeping invariant of a lowering state: the shared
counter equals the number of allocated nodes, and the node at arena position
`i` carries index `i + 1` (indices are assigned 1, 2, ... in construction
order). -/
def IndexInv (s : LowerState) : Prop :=
  s.index = s.nodes.length ∧ ∀ i nd, s.nodes[i]? = some nd → nd.index = i + 1

/-- RangeChildInv: every ForRangeStmt node of the arena has as first child a
RangeStmt node carrying the Range action. -/
def RangeChildInv (s : LowerState) : Prop :=
  ∀ (i : Nat) (nd : NodeData), s.nodes[i]? = some nd →
    nd.kind = Kind.ForRangeStmt →
    ∃ (c : Nat) (cnd : NodeData), nd.child.head? = some c
      ∧ s.nodes[c]? = some cnd
      ∧ cnd.kind = Kind.RangeStmt ∧ cnd.action = Action.Range

/-- StackInv: the ancestor stack holds positions of allocated nodes, none of
which is a ForRangeStmt (the synthetic range parent is never pushed). -/
def StackInv (s : LowerState) : Prop :=
  ∀ id, id ∈ s.stack → id < s.nodes.length ∧
    ∀ nd, s.nodes[id]? = some nd → nd.kind ≠ Kind.ForRangeStmt

/-!
Evaluation checks of the embedding on concrete inputs.
-/

example : kindString 7 = some "Break" := by decide
example : kindString 37 = none := by decide
example : kindString 38 = some "kind(38)" := by decide
example : kindString (-3) = some "kind(-3)" := by decide
example : actionString 17 = none := by decide

-- "0" / "0777" / "0x1F" / "1_000" / "-9" / overflow / "08"
example : parseIntGo [48] = some 0 := by decide
example : parseIntGo [48, 55, 55, 55] = some 511 := by decide
example : parseIntGo [48, 120, 49, 70] = some 31 := by decide
example : parseIntGo [49, 95, 48, 48, 48] = some 1000 := by decide
example : parseIntGo [45, 57] = some (-9) := by decide
example : parseIntGo [49, 56, 52, 52, 54, 55, 52, 52, 48, 55, 51, 55, 48, 57,
  53, 53, 49, 54, 49, 54] = none := by decide
example : parseIntGo [48, 56] = none := by decide
example : parseIntGo [48, 120, 95, 49, 70] = some 31 := by decide
example : parseIntGo [49, 95, 95, 48] = none := by decide

example :
    loweredNode initState (SurfaceNode.forStmt true false false) =
      some { anc := none, index := 1, kind := Kind.For0, action := Action.Nop,
             ident := [], val := Val.undef, start := 0, child := [] } := by
  decide

example : goIntLiteral [49, 95, 48, 48, 48] = true := by decide
example : goIntLiteral [48, 56] = false := by decide
example : goIntLiteral [45, 48, 120, 95, 49, 70] = true := by decide
example : specIntLiteral [49, 56, 52, 52, 54, 55, 52, 52, 48, 55, 51, 55, 48,
  57, 53, 53, 49, 54, 49, 54] = true := by decide

example :
    loadPackageName 1 21 "github.com/foo/pkg" "_pkg9/src/github.com/foo/pkg"
      [("pkg.go", "pkg"), ("pkgfalse.go", "pkgfalse")] =
    Except.error ("1:21: import \"github.com/foo/pkg\" error: " ++
      "found packages pkg and pkgfalse in _pkg9/src/github.com/foo/pkg") := by
  rfl

/-!
Structural helper lemmas about `addChild` and the per-case projections.
-/

theorem appendChild_length (ns : List NodeData) (a c : Nat) :
    (appendChild ns a c).length = ns.length := by
  unfold appendChild
  cases h : ns[a]? <;> simp

theorem pushNew_props (s : LowerState) (anc : Option Nat) (k : Kind)
    (a : GoAction) :
    ∃ nd, (pushNew s anc k a).stack.head? = some s.nodes.length
      ∧ (pushNew s anc k a).nodes[s.nodes.length]? = some nd
      ∧ nd.anc = anc ∧ nd.index = s.index + 1 ∧ nd.kind = k ∧ nd.action = a
      ∧ nd.ident = [] ∧ nd.val = Val.undef ∧ nd.start = s.nodes.length := by
  cases anc with
  | none =>
    refine ⟨{ anc := none, index := s.index + 1, kind := k, action := a,
              ident := [], val := Val.undef, start := s.nodes.length,
              child := [] }, rfl, ?_, rfl, rfl, rfl, rfl, rfl, rfl, rfl⟩
    exact List.getElem?_concat_length s.nodes _
  | some p =>
    show ∃ nd, _ = some s.nodes.length
      ∧ (appendChild (s.nodes ++ [_]) p _)[s.nodes.length]? = some nd ∧ _
    unfold appendChild
    cases h : (s.nodes ++
        [{ anc := some p, index := s.index + 1, kind := k, action := a,
           ident := [], val := Val.undef, start := s.nodes.length,
           child := [] : NodeData }])[p]? with
    | none =>
      refine ⟨{ anc := some p, index := s.index + 1, kind := k, action := a,
                ident := [], val := Val.undef, start := s.nodes.length,
                child := [] }, rfl, ?_, rfl, rfl, rfl, rfl, rfl, rfl, rfl⟩
      exact List.getElem?_concat_length s.nodes _
    | some pn =>
      by_cases hp : p = s.nodes.length
      · subst hp
        rw [List.getElem?_concat_length] at h
        cases h
        refine ⟨{ anc := some s.nodes.length, index := s.index + 1, kind := k,
                  action := a, ident := [], val := Val.undef,
                  start := s.nodes.length, child := [] ++ [s.nodes.length] },
          rfl, ?_, rfl, rfl, rfl, rfl, rfl, rfl, rfl⟩
        exact List.getElem?_set_self (by simp)
      · refine ⟨{ anc := some p, index := s.index + 1, kind := k, action := a,
                  ident := [], val := Val.undef, start := s.nodes.length,
                  child := [] }, rfl, ?_, rfl, rfl, rfl, rfl, rfl, rfl, rfl⟩
        rw [List.getElem?_set_ne hp]
        exact List.getElem?_concat_length s.nodes _

theorem loweredNode_pushNew (s : LowerState) (sn : SurfaceNode) (k : Kind)
    (a : GoAction)
    (h : inspectStep s (some sn) = pushNew s s.stack.head? k a) :
    ∃ nd, loweredNode s sn = some nd ∧ nd.anc = s.stack.head?
      ∧ nd.index = s.index + 1 ∧ nd.kind = k ∧ nd.action = a
      ∧ nd.ident = [] ∧ nd.val = Val.undef ∧ nd.start = s.nodes.length := by
  obtain ⟨nd, hh, hg, hrest⟩ := pushNew_props s s.stack.head? k a
  refine ⟨nd, ?_, hrest⟩
  unfold loweredNode
  rw [h, hh]
  exact hg

/-- C10: Kind.String and Action.String return a string for every integer
without panicking, falling back to kind(n)/action(n) out of range.  The code
violates this at exactly the table lengths: the guard `k <= Kind(len(kinds))`
admits `k = 37` (and `a = 17`), so `kinds[37]` / `actions[17]` are
out-of-range reads that panic (embedded as `none`); every other argument,
negative or past the table, does produce a string as claimed. -/
theorem kindString_bounds_bug :
    kindString 37 = none ∧ actionString 17 = none
    ∧ kindString 36 = some "ReturnStmt" ∧ kindString 0 = some "Undef"
    ∧ kindString 38 = some "kind(38)" ∧ kindString (-3) = some "kind(-3)"
    ∧ actionString 16 = some "-" ∧ actionString 18 = some "action(18)"
    ∧ actionString (-1) = some "action(-1)" := by
  decide

/-- C9: a directory whose files declare two distinct package names makes
resolution fail with exactly the positioned diagnostic of the spec; on the
_pkg9 workspace of the test the message is reproduced verbatim. -/
theorem pkg9_found_packages_error :
    loadPackageName 1 21 "github.com/foo/pkg" "_pkg9/src/github.com/foo/pkg"
        [("pkg.go", "pkg"), ("pkgfalse.go", "pkgfalse")] =
      Except.error
        "1:21: import \"github.com/foo/pkg\" error: found packages pkg and pkgfalse in _pkg9/src/github.com/foo/pkg"
    ∧ ∀ (line col : Nat) (path dir fa fb A B : String), A ≠ B →
        loadPackageName line col path dir [(fa, A), (fb, B)] =
          Except.error (importErrorMsg line col path (foundPackagesMsg A B dir)) := by
  constructor
  · rfl
  · intro line col path dir fa fb A B hAB
    have hba : ¬(B = A) := fun hba => hAB hba.symm
    simp [loadPackageName, pkgScan, hba]

/-- C9 witness: the general clause applied to the _pkg9 file set. -/
theorem pkg9_found_packages_error_witness :
    ("pkg" : String) ≠ "pkgfalse" ∧
    loadPackageName 1 21 "github.com/foo/pkg" "_pkg9/src/github.com/foo/pkg"
        [("pkg.go", "pkg"), ("pkgfalse.go", "pkgfalse")] =
      Except.error (importErrorMsg 1 21 "github.com/foo/pkg"
        (foundPackagesMsg "pkg" "pkgfalse" "_pkg9/src/github.com/foo/pkg")) :=
  ⟨by decide, pkg9_found_packages_error.2 1 21 "github.com/foo/pkg"
    "_pkg9/src/github.com/foo/pkg" "pkg.go" "pkgfalse.go" "pkg" "pkgfalse"
    (by decide)⟩

/-- C2 counterexample: at a concrete failing parse, Ast does not hand the
host an error value; it ends in a panic. -/
theorem ast_parse_failure_cex :
    Ast (Except.error "sample.go:1:1: expected declaration, found foo") =
      AstOutcome.panicked "sample.go:1:1: expected declaration, found foo" :=
  rfl

/-- C2 amended: when the surface parser fails, Ast panics with the parser's
error (its signature `(*Node, Def)` has no error result); the panic payload
is exactly the parser's message. -/
theorem ast_parse_failure_panics (e : String) :
    Ast (Except.error e) = AstOutcome.panicked e :=
  rfl

/-- C1 counterexample: a for-statement with an init clause but no condition
(legal Go: `for i := 0; ; i++`) also lowers to For0, so For0 does not
characterise the fully empty loop header. -/
theorem forStmt_claim_cex :
    ¬ ∀ (s : LowerState) (i c p : Bool) (nd : NodeData),
        loweredNode s (SurfaceNode.forStmt i c p) = some nd →
        (nd.kind = Kind.For0 ↔ i = false ∧ c = false ∧ p = false) := by
  intro h
  have h2 := h initState true false false
    { anc := none, index := 1, kind := Kind.For0, action := Action.Nop,
      ident := [], val := Val.undef, start := 0, child := [] } (by decide)
  exact absurd (h2.mp rfl).1 (by decide)

/-- C1 amended: a lowered for-statement is For0 exactly when it has no
condition (whatever its init and post clauses); with a condition, For1/For2/
For3/For4 are keyed on the presence of init and post as claimed. -/
theorem forStmt_kind_classification (s : LowerState) (i c p : Bool) :
    ∃ nd, loweredNode s (SurfaceNode.forStmt i c p) = some nd
      ∧ (nd.kind = Kind.For0 ↔ c = false)
      ∧ (nd.kind = Kind.For1 ↔ c = true ∧ i = false ∧ p = false)
      ∧ (nd.kind = Kind.For2 ↔ c = true ∧ i = true ∧ p = false)
      ∧ (nd.kind = Kind.For3 ↔ c = true ∧ i = false ∧ p = true)
      ∧ (nd.kind = Kind.For4 ↔ c = true ∧ i = true ∧ p = true) := by
  obtain ⟨nd, hln, -, -, hk, -⟩ :=
    loweredNode_pushNew s (SurfaceNode.forStmt i c p) (forKind i c p)
      Action.Nop rfl
  refine ⟨nd, hln, ?_⟩
  rw [hk]
  cases i <;> cases c <;> cases p <;> decide

/-- C4 counterexample: a goto branch statement lowers to the zero Kind
`Undef`, which is neither Break nor Continue. -/
theorem branch_claim_cex :
    ¬ ∀ (s : LowerState) (tok : GoToken) (nd : NodeData),
        loweredNode s (SurfaceNode.branchStmt tok) = some nd →
        (nd.kind = Kind.Break ∨ nd.kind = Kind.Continue) := by
  intro h
  have h2 := h initState GoToken.tGOTO
    { anc := none, index := 1, kind := Kind.Undef, action := Action.Nop,
      ident := [], val := Val.undef, start := 0, child := [] } (by decide)
  cases h2 with
  | inl h2 => exact absurd h2 (by decide)
  | inr h2 => exact absurd h2 (by decide)

/-- C4 amended: a break token lowers to Break and a continue token to
Continue; any other branch token (goto, fallthrough) leaves the zero Kind,
Undef. -/
theorem branch_kind_classification (s : LowerState) (tok : GoToken) :
    ∃ nd, loweredNode s (SurfaceNode.branchStmt tok) = some nd
      ∧ (nd.kind = Kind.Break ↔ tok = GoToken.tBREAK)
      ∧ (nd.kind = Kind.Continue ↔ tok = GoToken.tCONTINUE)
      ∧ (nd.kind = Kind.Undef ↔
          tok ≠ GoToken.tBREAK ∧ tok ≠ GoToken.tCONTINUE) := by
  obtain ⟨nd, hln, -, -, hk, -⟩ :=
    loweredNode_pushNew s (SurfaceNode.branchStmt tok) (branchKind tok)
      Action.Nop rfl
  refine ⟨nd, hln, ?_⟩
  rw [hk]
  cases tok <;> decide

/-- C7: a lowered if-statement is classified If0/If1/If2/If3 by the presence
of its init clause and its else branch, exactly as claimed. -/
theorem ifStmt_kind_classification (s : LowerState) (i e : Bool) :
    ∃ nd, loweredNode s (SurfaceNode.ifStmt i e) = some nd
      ∧ (nd.kind = Kind.If0 ↔ i = false ∧ e = false)
      ∧ (nd.kind = Kind.If1 ↔ i = false ∧ e = true)
      ∧ (nd.kind = Kind.If2 ↔ i = true ∧ e = false)
      ∧ (nd.kind = Kind.If3 ↔ i = true ∧ e = true) := by
  obtain ⟨nd, hln, -, -, hk, -⟩ :=
    loweredNode_pushNew s (SurfaceNode.ifStmt i e) (ifKind i e) Action.Nop rfl
  refine ⟨nd, hln, ?_⟩
  rw [hk]
  cases i <;> cases e <;> decide

/-- C8: the six handled binary operators map to the claimed actions, and an
assignment's action is AssignX exactly when it has several left-hand sides
and one right-hand side, Assign otherwise. -/
theorem binary_and_assign_actions (s : LowerState) :
    (∃ nd, loweredNode s (SurfaceNode.binaryExpr GoToken.tADD) = some nd
       ∧ nd.action = Action.Add)
    ∧ (∃ nd, loweredNode s (SurfaceNode.binaryExpr GoToken.tSUB) = some nd
       ∧ nd.action = Action.Sub)
    ∧ (∃ nd, loweredNode s (SurfaceNode.binaryExpr GoToken.tAND) = some nd
       ∧ nd.action = Action.And)
    ∧ (∃ nd, loweredNode s (SurfaceNode.binaryExpr GoToken.tEQL) = some nd
       ∧ nd.action = Action.Equal)
    ∧ (∃ nd, loweredNode s (SurfaceNode.binaryExpr GoToken.tGTR) = some nd
       ∧ nd.action = Action.Greater)
    ∧ (∃ nd, loweredNode s (SurfaceNode.binaryExpr GoToken.tLSS) = some nd
       ∧ nd.action = Action.Lower)
    ∧ ∀ lhs rhs : Nat,
        ∃ nd, loweredNode s (SurfaceNode.assignStmt lhs rhs) = some nd
          ∧ (nd.action = Action.AssignX ↔ 1 < lhs ∧ rhs = 1)
          ∧ (nd.action = Action.Assign ↔ ¬(1 < lhs ∧ rhs = 1)) := by
  refine ⟨?_, ?_, ?_, ?_, ?_, ?_, ?_⟩
  · obtain ⟨nd, hln, -, -, -, ha, -⟩ :=
      loweredNode_pushNew s (SurfaceNode.binaryExpr GoToken.tADD)
        Kind.BinaryExpr Action.Add rfl
    exact ⟨nd, hln, ha⟩
  · obtain ⟨nd, hln, -, -, -, ha, -⟩ :=
      loweredNode_pushNew s (SurfaceNode.binaryExpr GoToken.tSUB)
        Kind.BinaryExpr Action.Sub rfl
    exact ⟨nd, hln, ha⟩
  · obtain ⟨nd, hln, -, -, -, ha, -⟩ :=
      loweredNode_pushNew s (SurfaceNode.binaryExpr GoToken.tAND)
        Kind.BinaryExpr Action.And rfl
    exact ⟨nd, hln, ha⟩
  · obtain ⟨nd, hln, -, -, -, ha, -⟩ :=
      loweredNode_pushNew s (SurfaceNode.binaryExpr GoToken.tEQL)
        Kind.BinaryExpr Action.Equal rfl
    exact ⟨nd, hln, ha⟩
  · obtain ⟨nd, hln, -, -, -, ha, -⟩ :=
      loweredNode_pushNew s (SurfaceNode.binaryExpr GoToken.tGTR)
        Kind.BinaryExpr Action.Greater rfl
    exact ⟨nd, hln, ha⟩
  · obtain ⟨nd, hln, -, -, -, ha, -⟩ :=
      loweredNode_pushNew s (SurfaceNode.binaryExpr GoToken.tLSS)
        Kind.BinaryExpr Action.Lower rfl
    exact ⟨nd, hln, ha⟩
  · intro lhs rhs
    obtain ⟨nd, hln, -, -, -, ha, -⟩ :=
      loweredNode_pushNew s (SurfaceNode.assignStmt lhs rhs)
        Kind.AssignStmt (assignAction lhs rhs) rfl
    refine ⟨nd, hln, ?_, ?_⟩ <;> rw [ha] <;> unfold assignAction <;>
      by_cases h : 1 < lhs ∧ rhs = 1
    · rw [if_pos h]
      exact ⟨fun _ => h, fun _ => rfl⟩
    · rw [if_neg h]
      exact ⟨fun hx => absurd hx (by decide), fun hh => absurd hh h⟩
    · rw [if_pos h]
      exact ⟨fun hx => absurd hx (by decide), fun hn => absurd h hn⟩
    · rw [if_neg h]
      exact ⟨fun _ => h, fun _ => rfl⟩

theorem appendChild_map {α : Type} (ns : List NodeData) (a c i : Nat)
    (f : NodeData → α)
    (hf : ∀ nd : NodeData, f { nd with child := nd.child ++ [c] } = f nd) :
    ((appendChild ns a c)[i]?).map f = (ns[i]?).map f := by
  unfold appendChild
  cases h : ns[a]? with
  | none => rfl
  | some nd =>
    by_cases hai : a = i
    · subst hai
      obtain ⟨hlt, -⟩ := List.getElem?_eq_some_iff.mp h
      rw [List.getElem?_set_self hlt, h]
      simp [hf]
    · rw [List.getElem?_set_ne hai]

theorem setIdentVal_map {α : Type} (s : LowerState) (id : Nat)
    (iv : List Nat) (v : Val) (f : NodeData → α)
    (hf : ∀ nd : NodeData, f { nd with ident := iv, val := v } = f nd) (i : Nat) :
    ((setIdentVal s id iv v).nodes[i]?).map f = (s.nodes[i]?).map f := by
  unfold setIdentVal
  cases h : s.nodes[id]? with
  | none => rfl
  | some nd =>
    by_cases hai : id = i
    · subst hai
      obtain ⟨hlt, -⟩ := List.getElem?_eq_some_iff.mp h
      rw [List.getElem?_set_self hlt, h]
      simp [hf]
    · rw [List.getElem?_set_ne hai]

theorem setIdent_map {α : Type} (s : LowerState) (id : Nat) (iv : List Nat)
    (f : NodeData → α)
    (hf : ∀ nd : NodeData, f { nd with ident := iv } = f nd) (i : Nat) :
    ((setIdent s id iv).nodes[i]?).map f = (s.nodes[i]?).map f := by
  unfold setIdent
  cases h : s.nodes[id]? with
  | none => rfl
  | some nd =>
    by_cases hai : id = i
    · subst hai
      obtain ⟨hlt, -⟩ := List.getElem?_eq_some_iff.mp h
      rw [List.getElem?_set_self hlt, h]
      simp [hf]
    · rw [List.getElem?_set_ne hai]

theorem setIdentVal_length (s : LowerState) (id : Nat) (iv : List Nat)
    (v : Val) : (setIdentVal s id iv v).nodes.length = s.nodes.length := by
  unfold setIdentVal
  cases h : s.nodes[id]? <;> simp

theorem setIdent_length (s : LowerState) (id : Nat) (iv : List Nat) :
    (setIdent s id iv).nodes.length = s.nodes.length := by
  unfold setIdent
  cases h : s.nodes[id]? <;> simp

theorem setIdentVal_index_eq (s : LowerState) (id : Nat) (iv : List Nat)
    (v : Val) : (setIdentVal s id iv v).index = s.index := by
  unfold setIdentVal
  cases h : s.nodes[id]? <;> rfl

theorem setIdent_index_eq (s : LowerState) (id : Nat) (iv : List Nat) :
    (setIdent s id iv).index = s.index := by
  unfold setIdent
  cases h : s.nodes[id]? <;> rfl

theorem concat_index_inv (ns : List NodeData) (n : NodeData)
    (h : ∀ i nd, ns[i]? = some nd → nd.index = i + 1)
    (hn : n.index = ns.length + 1) :
    ∀ i nd, (ns ++ [n])[i]? = some nd → nd.index = i + 1 := by
  intro i nd hg
  by_cases hi : i < ns.length
  · rw [List.getElem?_append_left hi] at hg
    exact h i nd hg
  · by_cases he : i = ns.length
    · subst he
      rw [List.getElem?_concat_length] at hg
      cases hg
      exact hn
    · have hnone : (ns ++ [n])[i]? = none := by
        apply List.getElem?_eq_none
        simp only [List.length_append, List.length_cons, List.length_nil]
        omega
      rw [hnone] at hg
      cases hg

theorem map_index_inv (ns ms : List NodeData)
    (hmap : ∀ i : Nat,
      (ms[i]?).map NodeData.index = (ns[i]?).map NodeData.index)
    (h : ∀ i nd, ns[i]? = some nd → nd.index = i + 1) :
    ∀ i nd, ms[i]? = some nd → nd.index = i + 1 := by
  intro i nd hg
  have := hmap i
  rw [hg] at this
  cases hn : ns[i]? with
  | none => rw [hn] at this; cases this
  | some nd' =>
    rw [hn] at this
    have hidx : nd.index = nd'.index := by
      simpa using this
    rw [hidx]
    exact h i nd' hn

theorem addChild_indexInv (s : LowerState) (anc : Option Nat) (k : Kind)
    (a : GoAction) (h : IndexInv s) : IndexInv (addChild s anc k a).1 := by
  obtain ⟨hlen, hidx⟩ := h
  cases anc with
  | none =>
    refine ⟨by simp [addChild, hlen], ?_⟩
    exact concat_index_inv s.nodes _ hidx (by simp [hlen])
  | some p =>
    refine ⟨?_, ?_⟩
    · show s.index + 1 = (appendChild _ _ _).length
      rw [appendChild_length]
      simp [hlen]
    · refine map_index_inv (s.nodes ++
          [{ anc := some p, index := s.index + 1, kind := k, action := a,
             ident := [], val := Val.undef, start := s.nodes.length,
             child := [] }]) _ ?_ ?_
      · intro i
        exact appendChild_map _ _ _ _ NodeData.index fun _ => rfl
      · exact concat_index_inv s.nodes _ hidx (by simp [hlen])

theorem setIdentVal_indexInv (s : LowerState) (id : Nat) (iv : List Nat)
    (v : Val) (h : IndexInv s) : IndexInv (setIdentVal s id iv v) := by
  refine ⟨by rw [setIdentVal_index_eq, setIdentVal_length]; exact h.1, ?_⟩
  exact map_index_inv s.nodes _
    (fun i => setIdentVal_map s id iv v NodeData.index (fun _ => rfl) i) h.2

theorem setIdent_indexInv (s : LowerState) (id : Nat) (iv : List Nat)
    (h : IndexInv s) : IndexInv (setIdent s id iv) := by
  refine ⟨by rw [setIdent_index_eq, setIdent_length]; exact h.1, ?_⟩
  exact map_index_inv s.nodes _
    (fun i => setIdent_map s id iv NodeData.index (fun _ => rfl) i) h.2

theorem inspectStep_indexInv (s : LowerState) (ev : Option SurfaceNode)
    (h : IndexInv s) : IndexInv (inspectStep s ev) := by
  cases ev with
  | none => exact h
  | some sn =>
    cases sn
    case basicLit v =>
      exact setIdentVal_indexInv _ _ _ _ (addChild_indexInv s _ _ _ h)
    case ident name =>
      exact setIdent_indexInv _ _ _ (addChild_indexInv s _ _ _ h)
    case rangeStmt =>
      exact addChild_indexInv _ _ _ _ (addChild_indexInv s _ _ _ h)
    all_goals exact addChild_indexInv s _ _ _ h

theorem runLower_cons (ev : Option SurfaceNode) (evs : List (Option SurfaceNode))
    (s : LowerState) :
    (ev :: evs).foldl inspectStep s = evs.foldl inspectStep (inspectStep s ev) :=
  rfl

theorem foldl_indexInv (evs : List (Option SurfaceNode)) :
    ∀ s : LowerState, IndexInv s → IndexInv (evs.foldl inspectStep s) := by
  induction evs with
  | nil => exact fun _ h => h
  | cons ev evs ih => exact fun s h => ih _ (inspectStep_indexInv s ev h)

theorem initState_indexInv : IndexInv initState := by
  refine ⟨rfl, ?_⟩
  intro i nd h
  simp [initState] at h

theorem runLower_indexInv (evs : List (Option SurfaceNode)) :
    IndexInv (runLower evs) :=
  foldl_indexInv evs initState initState_indexInv

/-- C5: addChild increments the shared counter, stamps the new node with the
new counter value, points its start at itself, and sets the root exactly
when there is no ancestor, otherwise appends the node as last child of the
ancestor; consequently, over a whole lowering, the arena's index values are
assigned 1, 2, ... in construction order, hence distinct and strictly
increasing. -/
theorem addChild_contract_and_index_order :
    (∀ (s : LowerState) (anc : Option Nat) (k : Kind) (a : GoAction),
       (addChild s anc k a).1.index = s.index + 1
       ∧ (∃ nd, (addChild s anc k a).1.nodes[(addChild s anc k a).2]? = some nd
            ∧ nd.index = s.index + 1 ∧ nd.start = (addChild s anc k a).2)
       ∧ (anc = none → (addChild s anc k a).1.root = some (addChild s anc k a).2)
       ∧ (∀ p, anc = some p → ∀ pn, s.nodes[p]? = some pn →
            ∃ pn', (addChild s anc k a).1.nodes[p]? = some pn'
              ∧ pn'.child = pn.child ++ [(addChild s anc k a).2]))
    ∧ ∀ (evs : List (Option SurfaceNode)) (i j : Nat) (ndi ndj : NodeData),
        (runLower evs).nodes[i]? = some ndi →
        (runLower evs).nodes[j]? = some ndj →
        i < j → ndi.index < ndj.index ∧ ndi.index ≠ ndj.index := by
  constructor
  · intro s anc k a
    cases anc with
    | none =>
      refine ⟨rfl, ?_, fun _ => rfl, ?_⟩
      · exact ⟨_, List.getElem?_concat_length s.nodes _, rfl, rfl⟩
      · intro p hp
        cases hp
    | some p =>
      refine ⟨rfl, ?_, ?_, ?_⟩
      · obtain ⟨nd, -, hg, -, hidx, -, -, -, -, hst⟩ := pushNew_props s (some p) k a
        exact ⟨nd, hg, hidx, hst⟩
      · intro hc
        cases hc
      · intro q hq pn hpn
        cases hq
        obtain ⟨hlt, -⟩ := List.getElem?_eq_some_iff.mp hpn
        refine ⟨{ pn with child := pn.child ++ [s.nodes.length] }, ?_, rfl⟩
        show (appendChild (s.nodes ++
            [{ anc := some p, index := s.index + 1, kind := k, action := a,
               ident := [], val := Val.undef, start := s.nodes.length,
               child := [] }]) p s.nodes.length)[p]? = _
        unfold appendChild
        rw [List.getElem?_append_left hlt, hpn]
        exact List.getElem?_set_self (by simp [List.length_append]; omega)
  · intro evs i j ndi ndj hi hj hij
    have h := (runLower_indexInv evs).2
    have h1 := h i ndi hi
    have h2 := h j ndj hj
    omega

/-- C5 witness: the contract at the root node of a tiny lowering, and the
index ordering on the two nodes of `runLower [file, blockStmt]`. -/
theorem addChild_contract_witness :
    (addChild initState none Kind.File Action.Nop).1.root = some 0
    ∧ (1 : Nat) < 2 ∧ (1 : Nat) ≠ 2 :=
  ⟨(addChild_contract_and_index_order.1 initState none Kind.File
      Action.Nop).2.2.1 rfl,
   addChild_contract_and_index_order.2
     [some SurfaceNode.file, some SurfaceNode.blockStmt] 0 1
     { anc := none, index := 1, kind := Kind.File, action := Action.Nop,
       ident := [], val := Val.undef, start := 0, child := [1] }
     { anc := some 0, index := 2, kind := Kind.BlockStmt, action := Action.Nop,
       ident := [], val := Val.undef, start := 1, child := [] }
     (by decide) (by decide) (by decide)⟩

theorem appendChild_get_ne (ns : List NodeData) (a c i : Nat) (h : a ≠ i) :
    (appendChild ns a c)[i]? = ns[i]? := by
  unfold appendChild
  cases hg : ns[a]? with
  | none => rfl
  | some nd => exact List.getElem?_set_ne h

theorem addChild_nodes_length (s : LowerState) (anc : Option Nat) (k : Kind)
    (a : GoAction) :
    (addChild s anc k a).1.nodes.length = s.nodes.length + 1 := by
  cases anc with
  | none => simp [addChild]
  | some p =>
    show (appendChild (s.nodes ++ [_]) p _).length = _
    rw [appendChild_length]
    simp

theorem addChild_stack (s : LowerState) (anc : Option Nat) (k : Kind)
    (a : GoAction) : (addChild s anc k a).1.stack = s.stack := by
  cases anc <;> rfl

theorem addChild_snd (s : LowerState) (anc : Option Nat) (k : Kind)
    (a : GoAction) : (addChild s anc k a).2 = s.nodes.length := by
  cases anc <;> rfl

theorem addChild_map {α : Type} (s : LowerState) (anc : Option Nat) (k : Kind)
    (a : GoAction) (f : NodeData → α)
    (hf : ∀ (nd : NodeData) (c : Nat), f { nd with child := nd.child ++ [c] } = f nd)
    (i : Nat) (hi : i < s.nodes.length) :
    ((addChild s anc k a).1.nodes[i]?).map f = (s.nodes[i]?).map f := by
  cases anc with
  | none =>
    show ((s.nodes ++ [_])[i]?).map f = _
    rw [List.getElem?_append_left hi]
  | some p =>
    show ((appendChild (s.nodes ++ [_]) p _)[i]?).map f = _
    rw [appendChild_map _ _ _ _ f (fun nd => hf nd _)]
    rw [List.getElem?_append_left hi]

theorem addChild_new_node_lt (s : LowerState) (anc : Option Nat) (k : Kind)
    (a : GoAction) (hanc : ∀ p, anc = some p → p < s.nodes.length) :
    (addChild s anc k a).1.nodes[s.nodes.length]? =
      some { anc := anc, index := s.index + 1, kind := k, action := a,
             ident := [], val := Val.undef, start := s.nodes.length,
             child := [] } := by
  cases anc with
  | none => exact List.getElem?_concat_length s.nodes _
  | some p =>
    show (appendChild (s.nodes ++ [_]) p _)[s.nodes.length]? = _
    rw [appendChild_get_ne _ _ _ _ (Nat.ne_of_lt (hanc p rfl))]
    exact List.getElem?_concat_length s.nodes _

theorem addChild_keep (s : LowerState) (anc : Option Nat) (k : Kind)
    (a : GoAction) (i : Nat) (hi : i < s.nodes.length)
    (hne : ∀ p, anc = some p → p ≠ i) :
    (addChild s anc k a).1.nodes[i]? = s.nodes[i]? := by
  cases anc with
  | none =>
    show (s.nodes ++ [_])[i]? = _
    exact List.getElem?_append_left hi
  | some p =>
    show (appendChild (s.nodes ++ [_]) p _)[i]? = _
    rw [appendChild_get_ne _ _ _ _ (hne p rfl)]
    exact List.getElem?_append_left hi

theorem addChild_parent_child (s : LowerState) (p : Nat) (k : Kind)
    (a : GoAction) (pn : NodeData) (hp : s.nodes[p]? = some pn) :
    (addChild s (some p) k a).1.nodes[p]? =
      some { pn with child := pn.child ++ [s.nodes.length] } := by
  obtain ⟨hlt, -⟩ := List.getElem?_eq_some_iff.mp hp
  show (appendChild (s.nodes ++ [_]) p _)[p]? = _
  unfold appendChild
  rw [List.getElem?_append_left hlt, hp]
  exact List.getElem?_set_self (by simp [List.length_append]; omega)

theorem map_proj_some {α : Type} {ns ms : List NodeData} (f : NodeData → α)
    (i : Nat) (hmap : (ms[i]?).map f = (ns[i]?).map f) {nd : NodeData}
    (h : ns[i]? = some nd) : ∃ nd', ms[i]? = some nd' ∧ f nd' = f nd := by
  rw [h] at hmap
  cases hm : ms[i]? with
  | none => rw [hm] at hmap; cases hmap
  | some nd' =>
    rw [hm] at hmap
    exact ⟨nd', rfl, by simpa using hmap⟩

theorem rangeTwoSteps (s : LowerState) (anc : Option Nat)
    (hanc : ∀ p, anc = some p → p < s.nodes.length) :
    (rangeLowered s anc).1.nodes.length = s.nodes.length + 2
    ∧ (∃ pnd, (rangeLowered s anc).1.nodes[s.nodes.length]? = some pnd
        ∧ pnd.kind = Kind.ForRangeStmt ∧ pnd.action = Action.Nop
        ∧ pnd.child = [s.nodes.length + 1] ∧ pnd.anc = anc)
    ∧ (∃ cnd, (rangeLowered s anc).1.nodes[s.nodes.length + 1]? = some cnd
        ∧ cnd.kind = Kind.RangeStmt ∧ cnd.action = Action.Range
        ∧ cnd.child = [] ∧ cnd.anc = some s.nodes.length)
    ∧ (∀ i : Nat, i < s.nodes.length →
        ((rangeLowered s anc).1.nodes[i]?).map (fun nd => (nd.kind, nd.action)) =
          (s.nodes[i]?).map (fun nd => (nd.kind, nd.action)))
    ∧ (∀ i : Nat, i < s.nodes.length → (∀ p, anc = some p → p ≠ i) →
        (rangeLowered s anc).1.nodes[i]? = s.nodes[i]?)
    ∧ (rangeLowered s anc).2 = s.nodes.length + 1
    ∧ (rangeLowered s anc).1.stack = s.stack := by
  have snd1 := addChild_snd s anc Kind.ForRangeStmt Action.Nop
  have len1 := addChild_nodes_length s anc Kind.ForRangeStmt Action.Nop
  have new1 := addChild_new_node_lt s anc Kind.ForRangeStmt Action.Nop hanc
  refine ⟨?_, ?_, ?_, ?_, ?_, ?_, ?_⟩
  · show (addChild _ _ _ _).1.nodes.length = _
    rw [addChild_nodes_length, len1]
  · refine ⟨{ anc := anc, index := s.index + 1, kind := Kind.ForRangeStmt,
              action := Action.Nop, ident := [], val := Val.undef,
              start := s.nodes.length, child := [s.nodes.length + 1] },
            ?_, rfl, rfl, rfl, rfl⟩
    show (addChild _ (some _) _ _).1.nodes[s.nodes.length]? = _
    rw [snd1]
    have h2 := addChild_parent_child
      (addChild s anc Kind.ForRangeStmt Action.Nop).1 s.nodes.length
      Kind.RangeStmt Action.Range _ new1
    rw [len1] at h2
    exact h2
  · refine ⟨{ anc := some s.nodes.length,
              index := (addChild s anc Kind.ForRangeStmt Action.Nop).1.index + 1,
              kind := Kind.RangeStmt, action := Action.Range, ident := [],
              val := Val.undef, start := s.nodes.length + 1, child := [] },
            ?_, rfl, rfl, rfl, rfl⟩
    have h := addChild_new_node_lt
      (addChild s anc Kind.ForRangeStmt Action.Nop).1 (some s.nodes.length)
      Kind.RangeStmt Action.Range
      (by intro p hp; cases hp; rw [len1]; omega)
    rw [len1] at h
    show (addChild _ (some _) _ _).1.nodes[s.nodes.length + 1]? = _
    rw [snd1]
    exact h
  · intro i hi
    show ((addChild _ (some _) _ _).1.nodes[i]?).map _ = _
    rw [addChild_map _ _ _ _ (fun nd => (nd.kind, nd.action))
        (fun _ _ => rfl) i (by rw [len1]; omega)]
    exact addChild_map _ _ _ _ (fun nd => (nd.kind, nd.action))
      (fun _ _ => rfl) i hi
  · intro i hi hne
    show (addChild _ (some _) _ _).1.nodes[i]? = _
    rw [addChild_keep _ _ _ _ i (by rw [len1]; omega)
        (by intro p hp; cases hp; rw [snd1]; omega)]
    exact addChild_keep _ _ _ _ i hi hne
  · show (addChild _ (some _) _ _).2 = _
    rw [addChild_snd, len1]
  · show (addChild _ (some _) _ _).1.stack = _
    rw [addChild_stack]
    exact addChild_stack s anc Kind.ForRangeStmt Action.Nop

theorem pushNew_stack (s : LowerState) (anc : Option Nat) (k : Kind)
    (a : GoAction) :
    (pushNew s anc k a).stack = s.nodes.length :: s.stack := by
  cases anc <;> rfl

theorem setIdentVal_stack (s : LowerState) (id : Nat) (iv : List Nat)
    (v : Val) : (setIdentVal s id iv v).stack = s.stack := by
  unfold setIdentVal
  cases h : s.nodes[id]? <;> rfl

theorem setIdent_stack (s : LowerState) (id : Nat) (iv : List Nat) :
    (setIdent s id iv).stack = s.stack := by
  unfold setIdent
  cases h : s.nodes[id]? <;> rfl

theorem pushNew_stackRangeInv (s : LowerState) (k : Kind) (a : GoAction)
    (hs : StackInv s) (hr : RangeChildInv s) (hk : k ≠ Kind.ForRangeStmt) :
    StackInv (pushNew s s.stack.head? k a)
    ∧ RangeChildInv (pushNew s s.stack.head? k a) := by
  have hanc : ∀ p, s.stack.head? = some p → p < s.nodes.length :=
    fun p hp => (hs p (List.mem_of_mem_head? hp)).1
  have hlen : (pushNew s s.stack.head? k a).nodes.length = s.nodes.length + 1 :=
    addChild_nodes_length s s.stack.head? k a
  have hnew : (pushNew s s.stack.head? k a).nodes[s.nodes.length]? =
      some { anc := s.stack.head?, index := s.index + 1, kind := k,
             action := a, ident := [], val := Val.undef,
             start := s.nodes.length, child := [] } :=
    addChild_new_node_lt s s.stack.head? k a hanc
  have hmapKA : ∀ i : Nat, i < s.nodes.length →
      ((pushNew s s.stack.head? k a).nodes[i]?).map
          (fun nd => (nd.kind, nd.action)) =
        (s.nodes[i]?).map (fun nd => (nd.kind, nd.action)) :=
    fun i hi =>
      addChild_map s s.stack.head? k a (fun nd => (nd.kind, nd.action))
        (fun _ _ => rfl) i hi
  constructor
  · intro id hid
    rw [pushNew_stack] at hid
    rcases List.mem_cons.mp hid with rfl | hmem
    · refine ⟨by rw [hlen]; omega, ?_⟩
      intro nd hnd
      rw [hnew] at hnd
      cases hnd
      exact hk
    · obtain ⟨h1, h2⟩ := hs id hmem
      refine ⟨by rw [hlen]; omega, ?_⟩
      intro nd hnd
      obtain ⟨nd0, hnd0⟩ : ∃ nd0, s.nodes[id]? = some nd0 :=
        ⟨_, List.getElem?_eq_getElem h1⟩
      obtain ⟨nd', hnd', hfe⟩ :=
        map_proj_some (fun nd => (nd.kind, nd.action)) id (hmapKA id h1) hnd0
      rw [hnd'] at hnd
      cases hnd
      have hknd : nd.kind = nd0.kind := congrArg Prod.fst hfe
      rw [hknd]
      exact h2 nd0 hnd0
  · intro i nd hgi hki
    by_cases hi : i < s.nodes.length
    · obtain ⟨nd0, hnd0⟩ : ∃ nd0, s.nodes[i]? = some nd0 :=
        ⟨_, List.getElem?_eq_getElem hi⟩
      obtain ⟨nd', hnd', hfe⟩ :=
        map_proj_some (fun nd => (nd.kind, nd.action)) i (hmapKA i hi) hnd0
      rw [hnd'] at hgi
      cases hgi
      have hkind0 : nd.kind = nd0.kind := congrArg Prod.fst hfe
      have hk0 : nd0.kind = Kind.ForRangeStmt := by
        rw [← hkind0]
        exact hki
      have hpne : ∀ p, s.stack.head? = some p → p ≠ i := by
        intro p hp hpe
        subst hpe
        exact absurd hk0 ((hs p (List.mem_of_mem_head? hp)).2 nd0 hnd0)
      have hkeep : (pushNew s s.stack.head? k a).nodes[i]? = s.nodes[i]? :=
        addChild_keep s s.stack.head? k a i hi hpne
      have hnd0eq : nd0 = nd := by
        rw [hkeep] at hnd'
        exact Option.some.inj (hnd0.symm.trans hnd')
      obtain ⟨c, cnd, hhead, hc, hck, hca⟩ := hr i nd0 hnd0 hk0
      have hcl : c < s.nodes.length := (List.getElem?_eq_some_iff.mp hc).1
      obtain ⟨cnd', hc', hfc⟩ :=
        map_proj_some (fun nd => (nd.kind, nd.action)) c (hmapKA c hcl) hc
      have hfc1 : cnd'.kind = cnd.kind := congrArg Prod.fst hfc
      have hfc2 : cnd'.action = cnd.action := congrArg Prod.snd hfc
      refine ⟨c, cnd', ?_, hc', by rw [hfc1]; exact hck,
        by rw [hfc2]; exact hca⟩
      rw [← hnd0eq]
      exact hhead
    · by_cases hieq : i = s.nodes.length
      · subst hieq
        rw [hnew] at hgi
        cases hgi
        exact absurd hki hk
      · have hnone : (pushNew s s.stack.head? k a).nodes[i]? = none :=
          List.getElem?_eq_none (by rw [hlen]; omega)
        rw [hnone] at hgi
        cases hgi

theorem mapEq_stackRangeInv (t u : LowerState)
    (hstack : u.stack = t.stack)
    (hlen : u.nodes.length = t.nodes.length)
    (hmap : ∀ i : Nat,
      (u.nodes[i]?).map (fun nd => (nd.kind, nd.action, nd.child)) =
        (t.nodes[i]?).map (fun nd => (nd.kind, nd.action, nd.child)))
    (h : StackInv t ∧ RangeChildInv t) : StackInv u ∧ RangeChildInv u := by
  obtain ⟨hs, hr⟩ := h
  constructor
  · intro q hq
    rw [hstack] at hq
    obtain ⟨h1, h2⟩ := hs q hq
    refine ⟨by rw [hlen]; exact h1, ?_⟩
    intro nd hnd
    obtain ⟨nd0, hnd0⟩ : ∃ nd0, t.nodes[q]? = some nd0 :=
      ⟨_, List.getElem?_eq_getElem h1⟩
    obtain ⟨nd', hnd', hfe⟩ :=
      map_proj_some (fun nd => (nd.kind, nd.action, nd.child)) q (hmap q) hnd0
    rw [hnd'] at hnd
    cases hnd
    have hknd : nd.kind = nd0.kind := congrArg Prod.fst hfe
    rw [hknd]
    exact h2 nd0 hnd0
  · intro i nd hgi hki
    obtain ⟨nd0, hnd0, hfe⟩ :=
      map_proj_some (fun nd => (nd.kind, nd.action, nd.child)) i
        (hmap i).symm hgi
    have hknd : nd0.kind = nd.kind := congrArg Prod.fst hfe
    have hchd : nd0.child = nd.child := congrArg (fun r => r.2.2) hfe
    have hk0 : nd0.kind = Kind.ForRangeStmt := by rw [hknd]; exact hki
    obtain ⟨c, cnd, hhead, hc, hck, hca⟩ := hr i nd0 hnd0 hk0
    obtain ⟨cnd', hc', hfc⟩ :=
      map_proj_some (fun nd => (nd.kind, nd.action, nd.child)) c (hmap c) hc
    have hfck : cnd'.kind = cnd.kind := congrArg Prod.fst hfc
    have hfca : cnd'.action = cnd.action := congrArg (fun r => r.2.1) hfc
    refine ⟨c, cnd', ?_, hc', by rw [hfck]; exact hck, by rw [hfca]; exact hca⟩
    rw [← hchd]
    exact hhead

theorem rangeStmt_stackRangeInv (s : LowerState)
    (hs : StackInv s) (hr : RangeChildInv s) :
    StackInv (inspectStep s (some SurfaceNode.rangeStmt))
    ∧ RangeChildInv (inspectStep s (some SurfaceNode.rangeStmt)) := by
  have hanc : ∀ p, s.stack.head? = some p → p < s.nodes.length :=
    fun p hp => (hs p (List.mem_of_mem_head? hp)).1
  obtain ⟨R1, ⟨pnd, hp, hpk, hpa, hpc, -⟩, ⟨cnd, hcn, hck, hca, -, -⟩,
    R5, R4, R7, R6⟩ := rangeTwoSteps s s.stack.head? hanc
  have hlen : (inspectStep s (some SurfaceNode.rangeStmt)).nodes.length =
      s.nodes.length + 2 := R1
  have hstk : (inspectStep s (some SurfaceNode.rangeStmt)).stack =
      (rangeLowered s s.stack.head?).2 ::
        (rangeLowered s s.stack.head?).1.stack := rfl
  rw [R7, R6] at hstk
  have hp' : (inspectStep s (some SurfaceNode.rangeStmt)).nodes[s.nodes.length]? =
      some pnd := hp
  have hcn' : (inspectStep s
      (some SurfaceNode.rangeStmt)).nodes[s.nodes.length + 1]? = some cnd := hcn
  have R5' : ∀ i : Nat, i < s.nodes.length →
      ((inspectStep s (some SurfaceNode.rangeStmt)).nodes[i]?).map
          (fun nd => (nd.kind, nd.action)) =
        (s.nodes[i]?).map (fun nd => (nd.kind, nd.action)) := R5
  have R4' : ∀ i : Nat, i < s.nodes.length →
      (∀ p, s.stack.head? = some p → p ≠ i) →
      (inspectStep s (some SurfaceNode.rangeStmt)).nodes[i]? = s.nodes[i]? := R4
  constructor
  · intro q hq
    rw [hstk] at hq
    rcases List.mem_cons.mp hq with rfl | hmem
    · refine ⟨by rw [hlen]; omega, ?_⟩
      intro nd hnd
      rw [hcn'] at hnd
      cases hnd
      rw [hck]
      decide
    · obtain ⟨h1, h2⟩ := hs q hmem
      refine ⟨by rw [hlen]; omega, ?_⟩
      intro nd hnd
      obtain ⟨nd0, hnd0⟩ : ∃ nd0, s.nodes[q]? = some nd0 :=
        ⟨_, List.getElem?_eq_getElem h1⟩
      obtain ⟨nd', hnd', hfe⟩ :=
        map_proj_some (fun nd => (nd.kind, nd.action)) q (R5' q h1) hnd0
      rw [hnd'] at hnd
      cases hnd
      have hknd : nd.kind = nd0.kind := congrArg Prod.fst hfe
      rw [hknd]
      exact h2 nd0 hnd0
  · intro i nd hgi hki
    by_cases hi : i < s.nodes.length
    · obtain ⟨nd0, hnd0⟩ : ∃ nd0, s.nodes[i]? = some nd0 :=
        ⟨_, List.getElem?_eq_getElem hi⟩
      obtain ⟨nd', hnd', hfe⟩ :=
        map_proj_some (fun nd => (nd.kind, nd.action)) i (R5' i hi) hnd0
      rw [hnd'] at hgi
      cases hgi
      have hkind0 : nd.kind = nd0.kind := congrArg Prod.fst hfe
      have hk0 : nd0.kind = Kind.ForRangeStmt := by
        rw [← hkind0]
        exact hki
      have hpne : ∀ p, s.stack.head? = some p → p ≠ i := by
        intro p hpp hpe
        subst hpe
        exact absurd hk0 ((hs p (List.mem_of_mem_head? hpp)).2 nd0 hnd0)
      have hkeep := R4' i hi hpne
      have hnd0eq : nd0 = nd := by
        rw [hkeep] at hnd'
        exact Option.some.inj (hnd0.symm.trans hnd')
      obtain ⟨c, cnd2, hhead, hc, hck2, hca2⟩ := hr i nd0 hnd0 hk0
      have hcl : c < s.nodes.length := (List.getElem?_eq_some_iff.mp hc).1
      obtain ⟨cnd', hc', hfc⟩ :=
        map_proj_some (fun nd => (nd.kind, nd.action)) c (R5' c hcl) hc
      have hfck : cnd'.kind = cnd2.kind := congrArg Prod.fst hfc
      have hfca : cnd'.action = cnd2.action := congrArg Prod.snd hfc
      refine ⟨c, cnd', ?_, hc', by rw [hfck]; exact hck2,
        by rw [hfca]; exact hca2⟩
      rw [← hnd0eq]
      exact hhead
    · by_cases hie : i = s.nodes.length
      · subst hie
        rw [hp'] at hgi
        cases hgi
        refine ⟨s.nodes.length + 1, cnd, ?_, hcn', hck, hca⟩
        rw [hpc]
        rfl
      · by_cases hie2 : i = s.nodes.length + 1
        · subst hie2
          rw [hcn'] at hgi
          cases hgi
          rw [hck] at hki
          exact absurd hki (by decide)
        · have hnone :
              (inspectStep s (some SurfaceNode.rangeStmt)).nodes[i]? = none :=
            List.getElem?_eq_none (by rw [hlen]; omega)
          rw [hnone] at hgi
          cases hgi

theorem inspectStep_stackRangeInv (s : LowerState) (ev : Option SurfaceNode)
    (h : StackInv s ∧ RangeChildInv s) :
    StackInv (inspectStep s ev) ∧ RangeChildInv (inspectStep s ev) := by
  obtain ⟨hs, hr⟩ := h
  cases ev with
  | none =>
    constructor
    · intro id hid
      exact hs id (List.mem_of_mem_tail hid)
    · exact hr
  | some sn =>
    cases sn with
    | basicLit v =>
      refine mapEq_stackRangeInv
        (pushNew s s.stack.head? Kind.BasicLit Action.Nop) _ ?_ ?_ ?_
        (pushNew_stackRangeInv s Kind.BasicLit Action.Nop hs hr (by decide))
      · show (addChild s s.stack.head? Kind.BasicLit Action.Nop).2 ::
            (setIdentVal (addChild s s.stack.head? Kind.BasicLit Action.Nop).1
              (addChild s s.stack.head? Kind.BasicLit Action.Nop).2 v
              (basicLitValue v)).stack = _
        rw [setIdentVal_stack]
        rfl
      · show (setIdentVal (addChild s s.stack.head? Kind.BasicLit Action.Nop).1
            (addChild s s.stack.head? Kind.BasicLit Action.Nop).2 v
            (basicLitValue v)).nodes.length = _
        rw [setIdentVal_length]
        rfl
      · intro i
        show ((setIdentVal (addChild s s.stack.head? Kind.BasicLit Action.Nop).1
            (addChild s s.stack.head? Kind.BasicLit Action.Nop).2 v
            (basicLitValue v)).nodes[i]?).map _ = _
        exact setIdentVal_map _ _ _ _
          (fun nd => (nd.kind, nd.action, nd.child)) (fun _ => rfl) i
    | ident name =>
      refine mapEq_stackRangeInv
        (pushNew s s.stack.head? Kind.Ident Action.Nop) _ ?_ ?_ ?_
        (pushNew_stackRangeInv s Kind.Ident Action.Nop hs hr (by decide))
      · show (addChild s s.stack.head? Kind.Ident Action.Nop).2 ::
            (setIdent (addChild s s.stack.head? Kind.Ident Action.Nop).1
              (addChild s s.stack.head? Kind.Ident Action.Nop).2 name).stack = _
        rw [setIdent_stack]
        rfl
      · show (setIdent (addChild s s.stack.head? Kind.Ident Action.Nop).1
            (addChild s s.stack.head? Kind.Ident Action.Nop).2
            name).nodes.length = _
        rw [setIdent_length]
        rfl
      · intro i
        show ((setIdent (addChild s s.stack.head? Kind.Ident Action.Nop).1
            (addChild s s.stack.head? Kind.Ident Action.Nop).2
            name).nodes[i]?).map _ = _
        exact setIdent_map _ _ _
          (fun nd => (nd.kind, nd.action, nd.child)) (fun _ => rfl) i
    | funcDecl name =>
      exact mapEq_stackRangeInv
        (pushNew s s.stack.head? Kind.FuncDecl Action.Nop) _ rfl rfl
        (fun _ => rfl)
        (pushNew_stackRangeInv s Kind.FuncDecl Action.Nop hs hr (by decide))
    | rangeStmt => exact rangeStmt_stackRangeInv s hs hr
    | forStmt i c p =>
      exact pushNew_stackRangeInv s _ _ hs hr
        (by cases i <;> cases c <;> cases p <;> decide)
    | ifStmt i e =>
      exact pushNew_stackRangeInv s _ _ hs hr
        (by cases i <;> cases e <;> decide)
    | branchStmt tok =>
      exact pushNew_stackRangeInv s _ _ hs hr (by cases tok <;> decide)
    | arrayType => exact pushNew_stackRangeInv s _ _ hs hr (by decide)
    | assignStmt lhs rhs => exact pushNew_stackRangeInv s _ _ hs hr (by decide)
    | binaryExpr op => exact pushNew_stackRangeInv s _ _ hs hr (by decide)
    | blockStmt => exact pushNew_stackRangeInv s _ _ hs hr (by decide)
    | callExpr => exact pushNew_stackRangeInv s _ _ hs hr (by decide)
    | compositeLit => exact pushNew_stackRangeInv s _ _ hs hr (by decide)
    | exprStmt => exact pushNew_stackRangeInv s _ _ hs hr (by decide)
    | field => exact pushNew_stackRangeInv s _ _ hs hr (by decide)
    | fieldList => exact pushNew_stackRangeInv s _ _ hs hr (by decide)
    | file => exact pushNew_stackRangeInv s _ _ hs hr (by decide)
    | funcType => exact pushNew_stackRangeInv s _ _ hs hr (by decide)
    | incDecStmt tok => exact pushNew_stackRangeInv s _ _ hs hr (by decide)
    | indexExpr => exact pushNew_stackRangeInv s _ _ hs hr (by decide)
    | parenExpr => exact pushNew_stackRangeInv s _ _ hs hr (by decide)
    | returnStmt => exact pushNew_stackRangeInv s _ _ hs hr (by decide)
    | unknown => exact pushNew_stackRangeInv s _ _ hs hr (by decide)

theorem foldl_stackRangeInv (evs : List (Option SurfaceNode)) :
    ∀ s : LowerState, StackInv s ∧ RangeChildInv s →
      StackInv (evs.foldl inspectStep s)
      ∧ RangeChildInv (evs.foldl inspectStep s) := by
  induction evs with
  | nil => exact fun _ h => h
  | cons ev evs ih => exact fun s h => ih _ (inspectStep_stackRangeInv s ev h)

theorem initState_stackRangeInv : StackInv initState ∧ RangeChildInv initState := by
  constructor
  · intro id hid
    simp [initState] at hid
  · intro i nd h
    simp [initState] at h

/-- C6: lowering a range-based for loop creates a synthetic ForRangeStmt
parent with no surface visit of its own (a single RangeStmt visit appends
two nodes, and only the child is pushed for further construction); the
parent's loop head - its only child at creation - is a RangeStmt node
carrying the Range action; and in any complete lowering, every ForRangeStmt
node of the arena has a RangeStmt node with the Range action as its first
child. -/
theorem forRange_synthetic_parent :
    (∀ s : LowerState, (∀ p, s.stack.head? = some p → p < s.nodes.length) →
       (inspectStep s (some SurfaceNode.rangeStmt)).nodes.length =
           s.nodes.length + 2
       ∧ (∃ pnd, (inspectStep s
             (some SurfaceNode.rangeStmt)).nodes[s.nodes.length]? = some pnd
           ∧ pnd.kind = Kind.ForRangeStmt
           ∧ pnd.child = [s.nodes.length + 1])
       ∧ (∃ cnd, (inspectStep s
             (some SurfaceNode.rangeStmt)).nodes[s.nodes.length + 1]? = some cnd
           ∧ cnd.kind = Kind.RangeStmt ∧ cnd.action = Action.Range)
       ∧ (inspectStep s (some SurfaceNode.rangeStmt)).stack.head? =
           some (s.nodes.length + 1))
    ∧ ∀ evs : List (Option SurfaceNode), RangeChildInv (runLower evs) := by
  constructor
  · intro s hanc
    obtain ⟨R1, ⟨pnd, hp, hpk, -, hpc, -⟩, ⟨cnd, hcn, hck, hca, -, -⟩,
      -, -, R7, -⟩ := rangeTwoSteps s s.stack.head? hanc
    refine ⟨R1, ⟨pnd, hp, hpk, hpc⟩, ⟨cnd, hcn, hck, hca⟩, ?_⟩
    show ((rangeLowered s s.stack.head?).2 ::
        (rangeLowered s s.stack.head?).1.stack).head? = _
    rw [R7]
    rfl
  · intro evs
    exact (foldl_stackRangeInv evs initState initState_stackRangeInv).2

/-- C6 witness: the per-step clause at the empty initial state. -/
theorem forRange_synthetic_parent_witness :
    (inspectStep initState (some SurfaceNode.rangeStmt)).nodes.length =
        initState.nodes.length + 2
    ∧ (∃ pnd, (inspectStep initState
          (some SurfaceNode.rangeStmt)).nodes[initState.nodes.length]? = some pnd
        ∧ pnd.kind = Kind.ForRangeStmt
        ∧ pnd.child = [initState.nodes.length + 1])
    ∧ (∃ cnd, (inspectStep initState
          (some SurfaceNode.rangeStmt)).nodes[initState.nodes.length + 1]? =
            some cnd
        ∧ cnd.kind = Kind.RangeStmt ∧ cnd.action = Action.Range)
    ∧ (inspectStep initState (some SurfaceNode.rangeStmt)).stack.head? =
        some (initState.nodes.length + 1) :=
  forRange_synthetic_parent.1 initState (by intro p hp; simp [initState] at hp)

set_option maxRecDepth 8000 in
theorem byteClasses : ∀ b : Nat, b < 256 →
    ((digitValue b).elim false fun d => decide (d < 10)) = isDecByte b
    ∧ ((digitValue b).elim false fun d => decide (d < 8)) = isOctByte b
    ∧ ((digitValue b).elim false fun d => decide (d < 2)) = isBinByte b
    ∧ ((digitValue b).elim false fun d => decide (d < 16)) = isHexByte b := by
  decide

set_option maxRecDepth 8000 in
theorem byteRanges : ∀ b : Nat, b < 256 →
    (isDecByte b = true → 48 ≤ b ∧ b ≤ 57)
    ∧ (isOctByte b = true → 48 ≤ b ∧ b ≤ 57)
    ∧ (isBinByte b = true → 48 ≤ b ∧ b ≤ 57)
    ∧ (isHexByte b = true →
        (48 ≤ b ∧ b ≤ 57) ∨ (97 ≤ lowerByte b ∧ lowerByte b ≤ 102)) := by
  decide

set_option maxRecDepth 8000 in
theorem byteValues : ∀ b : Nat, b < 256 →
    (isHexByte b = true → byteVal b = (digitValue b).getD 0)
    ∧ (isDecByte b = true → isHexByte b = true)
    ∧ (isOctByte b = true → isHexByte b = true)
    ∧ (isBinByte b = true → isHexByte b = true)
    ∧ (isDecByte b = true → digitValue b = some (b - 48)) := by
  decide

set_option maxRecDepth 8000 in
theorem bytePrefixes : ∀ b : Nat, b < 256 →
    (lowerByte b = 98 ↔ b = 98 ∨ b = 66)
    ∧ (lowerByte b = 111 ↔ b = 111 ∨ b = 79)
    ∧ (lowerByte b = 120 ↔ b = 120 ∨ b = 88)
    ∧ ((lowerByte b = 98 ∨ lowerByte b = 111 ∨ lowerByte b = 120) →
        isOctByte b = false) := by
  decide

theorem elim_digit_iff (b base : Nat) :
    ((digitValue b).elim false fun d => decide (d < base)) = true ↔
      ∃ d, digitValue b = some d ∧ d < base := by
  cases h : digitValue b <;> simp [h]

theorem loopVal_ge (base : Nat) (hb : 1 ≤ base) :
    ∀ (ds : List Nat) (n : Nat), n ≤ loopVal base ds n := by
  intro ds
  induction ds with
  | nil => intro n; exact Nat.le_refl n
  | cons b tl ih =>
    intro n
    by_cases h95 : b = 95
    · simp only [loopVal, if_pos h95]
      exact ih n
    · simp only [loopVal, if_neg h95]
      refine Nat.le_trans ?_ (ih (n * base + (digitValue b).getD 0))
      have h1 : n ≤ n * base := Nat.le_mul_of_pos_right n hb
      omega

theorem parseUintLoop_some (base : Nat) (hb : 2 ≤ base) :
    ∀ (ds : List Nat) (n : Nat) (us : Bool), n ≤ maxUint64 →
      ∀ r : Nat × Bool,
        (parseUintLoop base (maxUint64 / base + 1) maxUint64 ds n us = some r
          ↔ DigitsOK base ds ∧ loopVal base ds n ≤ maxUint64
            ∧ r = (loopVal base ds n, us || ds.any fun b => b = 95)) := by
  intro ds
  induction ds with
  | nil =>
    intro n us hn r
    simp only [parseUintLoop, loopVal]
    constructor
    · intro h
      refine ⟨?_, hn, ?_⟩
      · intro c hc
        cases hc
      rw [← Option.some.inj h]
      simp
    · rintro ⟨-, -, h⟩
      rw [h]
      simp
  | cons b tl ih =>
    intro n us hn r
    by_cases h95 : b = 95
    · subst h95
      have hstep : parseUintLoop base (maxUint64 / base + 1) maxUint64
          (95 :: tl) n us =
          parseUintLoop base (maxUint64 / base + 1) maxUint64 tl n true := by
        simp [parseUintLoop]
      have hlv : loopVal base (95 :: tl) n = loopVal base tl n := by
        simp [loopVal]
      rw [hstep, hlv, ih n true hn r]
      constructor
      · rintro ⟨h1, h2, h3⟩
        refine ⟨?_, h2, ?_⟩
        · intro c hc
          rcases List.mem_cons.mp hc with rfl | hc2
          · exact Or.inl rfl
          · exact h1 c hc2
        · rw [h3]
          simp
      · rintro ⟨h1, h2, h3⟩
        refine ⟨fun c hc => h1 c (List.mem_cons_of_mem _ hc), h2, ?_⟩
        rw [h3]
        simp
    · simp only [parseUintLoop, if_neg h95]
      cases hd : digitValue b with
      | none =>
        simp only [loopVal, if_neg h95, hd]
        constructor
        · intro h
          cases h
        · rintro ⟨h1, -, -⟩
          rcases h1 b (List.mem_cons_self b tl) with rfl | ⟨d, hd2, -⟩
          · exact absurd rfl h95
          · rw [hd] at hd2
            cases hd2
      | some d =>
        by_cases hdb : base ≤ d
        · simp only [hd, if_pos hdb]
          constructor
          · intro h
            cases h
          · rintro ⟨h1, -, -⟩
            rcases h1 b (List.mem_cons_self b tl) with rfl | ⟨d2, hd2, hlt⟩
            · exact absurd rfl h95
            · rw [hd] at hd2
              cases hd2
              omega
        · have hvge : n * base + d ≤ loopVal base (b :: tl) n := by
            simp only [loopVal, if_neg h95, hd, Option.getD_some]
            exact loopVal_ge base (by omega) tl _
          by_cases hcut : maxUint64 / base + 1 ≤ n
          · simp only [hd, if_neg hdb, if_pos hcut]
            constructor
            · intro h
              cases h
            · rintro ⟨-, h2, -⟩
              have hgt : maxUint64 < n * base := by
                have : maxUint64 / base < n := by omega
                have := (Nat.div_lt_iff_lt_mul (by omega : 0 < base)).mp this
                omega
              omega
          · by_cases hov : maxUint64 < n * base + d
            · simp only [hd, if_neg hdb, if_neg hcut, if_pos hov]
              constructor
              · intro h
                cases h
              · rintro ⟨-, h2, -⟩
                omega
            · simp only [hd, if_neg hdb, if_neg hcut, if_neg hov]
              rw [ih (n * base + d) us (by omega) r]
              have hlv : loopVal base (b :: tl) n =
                  loopVal base tl (n * base + d) := by
                simp only [loopVal, if_neg h95, hd, Option.getD_some]
              have hany : ((b :: tl).any fun c => c = 95) =
                  (tl.any fun c => c = 95) := by
                simp [h95]
              constructor
              · rintro ⟨h1, h2, h3⟩
                refine ⟨?_, by rw [hlv]; exact h2, by rw [hlv, hany]; exact h3⟩
                intro c hc
                rcases List.mem_cons.mp hc with rfl | hc2
                · exact Or.inr ⟨d, hd, by omega⟩
                · exact h1 c hc2
              · rintro ⟨h1, h2, h3⟩
                exact ⟨fun c hc => h1 c (List.mem_cons_of_mem _ hc),
                  by rw [← hlv]; exact h2, by rw [← hany, ← hlv]; exact h3⟩

/-- Unfolding equation of sepDigitsAux on a cons cell. -/
theorem sepDigitsAux_cons (isD : Nat → Bool) (b : Nat) (cs : List Nat) :
    sepDigitsAux isD (b :: cs) =
      if b = 95 then
        (match cs with
         | [] => false
         | c :: cs2 => isD c && sepDigitsAux isD cs2)
      else isD b && sepDigitsAux isD cs := by
  rw [sepDigitsAux.eq_def]

/-- After an underscore, sepDigitsAux behaves as sepDigits on the rest. -/
theorem sepDigitsAux_cons95 (isD : Nat → Bool) (tl : List Nat) :
    sepDigitsAux isD (95 :: tl) = sepDigits isD tl := by
  cases tl <;> rfl

theorem usLoop_aux_eq (hex : Bool) (isD : Nat → Bool)
    (hloopcls : ∀ b : Nat, b < 256 → isD b = true →
      ((48 ≤ b ∧ b ≤ 57) ∨ (hex = true ∧ 97 ≤ lowerByte b ∧ lowerByte b ≤ 102)))
    (h95 : isD 95 = false) :
    ∀ ds : List Nat, (∀ b ∈ ds, b < 256) → (∀ b ∈ ds, b = 95 ∨ isD b = true) →
      underscoreOKLoop hex ds Saw.digit = sepDigitsAux isD ds
      ∧ underscoreOKLoop hex ds Saw.under = sepDigits isD ds := by
  intro ds
  induction ds with
  | nil =>
    intro h1 h2
    constructor <;> simp [underscoreOKLoop, sepDigitsAux, sepDigits]
  | cons b tl ih =>
    intro h256 hmem
    have hb256 : b < 256 := h256 b (List.mem_cons_self b tl)
    have h256t : ∀ c ∈ tl, c < 256 :=
      fun c hc => h256 c (List.mem_cons_of_mem _ hc)
    have hmemt : ∀ c ∈ tl, c = 95 ∨ isD c = true :=
      fun c hc => hmem c (List.mem_cons_of_mem _ hc)
    obtain ⟨ihd, ihu⟩ := ih h256t hmemt
    rcases hmem b (List.mem_cons_self b tl) with rfl | hcls
    · have ht : ¬((48 ≤ 95 ∧ 95 ≤ 57)
          ∨ (hex = true ∧ 97 ≤ lowerByte 95 ∧ lowerByte 95 ≤ 102)) := by
        cases hex <;> decide
      have e1 : underscoreOKLoop hex (95 :: tl) Saw.digit =
          underscoreOKLoop hex tl Saw.under := by
        simp only [underscoreOKLoop]
        rw [if_neg ht, if_true, if_neg (by decide : ¬(Saw.digit ≠ Saw.digit))]
      have e1' : underscoreOKLoop hex (95 :: tl) Saw.under = false := by
        simp only [underscoreOKLoop]
        rw [if_neg ht, if_true, if_pos (by decide : Saw.under ≠ Saw.digit)]
      have e2 : sepDigitsAux isD (95 :: tl) = sepDigits isD tl :=
        sepDigitsAux_cons95 isD tl
      have e2' : sepDigits isD (95 :: tl) = false := by
        show (isD 95 && sepDigitsAux isD tl) = false
        rw [h95, Bool.false_and]
      exact ⟨by rw [e1, e2, ihu], by rw [e1', e2']⟩
    · have hbt := hloopcls b hb256 hcls
      have hb95 : b ≠ 95 := by
        intro h
        subst h
        rw [h95] at hcls
        cases hcls
      have e1 : underscoreOKLoop hex (b :: tl) Saw.digit =
          underscoreOKLoop hex tl Saw.digit := by
        simp only [underscoreOKLoop]
        rw [if_pos hbt]
      have e1' : underscoreOKLoop hex (b :: tl) Saw.under =
          underscoreOKLoop hex tl Saw.digit := by
        simp only [underscoreOKLoop]
        rw [if_pos hbt]
      have e2 : sepDigitsAux isD (b :: tl) = (isD b && sepDigitsAux isD tl) := by
        rw [sepDigitsAux_cons, if_neg hb95]
      have e2' : sepDigits isD (b :: tl) = (isD b && sepDigitsAux isD tl) := rfl
      constructor
      · rw [e1, ihd, e2, hcls, Bool.true_and]
      · rw [e1', ihd, e2', hcls, Bool.true_and]

theorem aux_members (isD : Nat → Bool) :
    ∀ ds : List Nat,
      (sepDigitsAux isD ds = true → ∀ b ∈ ds, b = 95 ∨ isD b = true)
      ∧ (sepDigits isD ds = true → ∀ b ∈ ds, b = 95 ∨ isD b = true) := by
  intro ds
  induction ds with
  | nil =>
    constructor <;> (intro _ b hb; cases hb)
  | cons b tl ih =>
    have hsep : ∀ c ∈ b :: tl,
        (isD b && sepDigitsAux isD tl) = true → c = 95 ∨ isD c = true := by
      intro c hc h
      rw [Bool.and_eq_true] at h
      rcases List.mem_cons.mp hc with rfl | hc2
      · exact Or.inr h.1
      · exact ih.1 h.2 c hc2
    constructor
    · by_cases hb95 : b = 95
      · subst hb95
        rw [sepDigitsAux_cons95]
        intro h c hc
        rcases List.mem_cons.mp hc with rfl | hc2
        · exact Or.inl rfl
        · exact ih.2 h c hc2
      · rw [sepDigitsAux_cons, if_neg hb95]
        intro h c hc
        exact hsep c hc h
    · intro h c hc
      exact hsep c hc h

theorem aux_of_no95 (isD : Nat → Bool) :
    ∀ ds : List Nat, (∀ b ∈ ds, b = 95 ∨ isD b = true) →
      (ds.any fun b => b = 95) = false → sepDigitsAux isD ds = true := by
  intro ds
  induction ds with
  | nil => intro _ _; rfl
  | cons b tl ih =>
    intro hmem hany
    rw [List.any_cons, Bool.or_eq_false_iff] at hany
    have hb95 : b ≠ 95 := by
      intro h
      rw [h] at hany
      cases hany.1
    have hcls : isD b = true := by
      rcases hmem b (List.mem_cons_self b tl) with rfl | h
      · exact absurd rfl hb95
      · exact h
    rw [sepDigitsAux_cons, if_neg hb95, hcls, Bool.true_and]
    exact ih (fun c hc => hmem c (List.mem_cons_of_mem _ hc)) hany.2

theorem filter_foldl_loopVal (base : Nat) (isD : Nat → Bool)
    (hval : ∀ b : Nat, b < 256 → isD b = true →
      byteVal b = (digitValue b).getD 0) :
    ∀ ds : List Nat, (∀ b ∈ ds, b < 256) →
      (∀ b ∈ ds, b = 95 ∨ isD b = true) → ∀ n : Nat,
      (ds.filter fun b => b ≠ 95).foldl (fun m b => m * base + byteVal b) n =
        loopVal base ds n := by
  intro ds
  induction ds with
  | nil => intro _ _ n; rfl
  | cons b tl ih =>
    intro h256 hmem n
    have h256t : ∀ c ∈ tl, c < 256 :=
      fun c hc => h256 c (List.mem_cons_of_mem _ hc)
    have hmemt : ∀ c ∈ tl, c = 95 ∨ isD c = true :=
      fun c hc => hmem c (List.mem_cons_of_mem _ hc)
    by_cases hb95 : b = 95
    · subst hb95
      have e1 : ((95 :: tl).filter fun c => c ≠ 95) =
          tl.filter fun c => c ≠ 95 := by
        simp
      have e2 : loopVal base (95 :: tl) n = loopVal base tl n := by
        simp [loopVal]
      rw [e1, e2]
      exact ih h256t hmemt n
    · have hcls : isD b = true := by
        rcases hmem b (List.mem_cons_self b tl) with rfl | h
        · exact absurd rfl hb95
        · exact h
      have e1 : ((b :: tl).filter fun c => c ≠ 95) =
          b :: tl.filter fun c => c ≠ 95 := by
        simp [List.filter_cons, hb95]
      have e2 : loopVal base (b :: tl) n =
          loopVal base tl (n * base + (digitValue b).getD 0) := by
        simp [loopVal, hb95]
      rw [e1, List.foldl_cons, e2, hval b (h256 b (List.mem_cons_self b tl)) hcls]
      exact ih h256t hmemt _

theorem digitsPipeline (base : Nat) (hb : 2 ≤ base) (isD : Nat → Bool) (hex : Bool)
    (hcls : ∀ b : Nat, b < 256 →
      ((digitValue b).elim false fun d => decide (d < base)) = isD b)
    (hrange : ∀ b : Nat, b < 256 → isD b = true →
      (48 ≤ b ∧ b ≤ 57) ∨ (hex = true ∧ 97 ≤ lowerByte b ∧ lowerByte b ≤ 102))
    (hval : ∀ b : Nat, b < 256 → isD b = true → byteVal b = (digitValue b).getD 0)
    (h95 : isD 95 = false)
    (limit : Nat) (hlim : limit ≤ maxUint64)
    (ds : List Nat) (h256 : ∀ b ∈ ds, b < 256) :
    (∃ r : Nat × Bool,
        parseUintLoop base (maxUint64 / base + 1) maxUint64 ds 0 false = some r
        ∧ (r.2 = true → underscoreOKLoop hex ds Saw.digit = true)
        ∧ r.1 ≤ limit)
    ↔ (sepDigitsAux isD ds = true ∧ litValue base ds ≤ limit) := by
  have hmem_of : DigitsOK base ds → ∀ b ∈ ds, b = 95 ∨ isD b = true := by
    intro hd b hbm
    rcases hd b hbm with h | h
    · exact Or.inl h
    · exact Or.inr (by rw [← hcls b (h256 b hbm)]; exact (elim_digit_iff b base).mpr h)
  have hmem_to : (∀ b ∈ ds, b = 95 ∨ isD b = true) → DigitsOK base ds := by
    intro hm b hbm
    rcases hm b hbm with h | h
    · exact Or.inl h
    · exact Or.inr ((elim_digit_iff b base).mp (by rw [hcls b (h256 b hbm)]; exact h))
  constructor
  · rintro ⟨r, hloop, hus, hr1⟩
    obtain ⟨hd, hlv, hr⟩ :=
      (parseUintLoop_some base hb ds 0 false (Nat.zero_le _) r).mp hloop
    have hmem := hmem_of hd
    have hfl : litValue base ds = loopVal base ds 0 :=
      filter_foldl_loopVal base isD hval ds h256 hmem 0
    refine ⟨?_, ?_⟩
    · cases hany : (ds.any fun b => b = 95) with
      | false => exact aux_of_no95 isD ds hmem hany
      | true =>
        have hr2 : r.2 = true := by rw [hr, hany]; rfl
        have husl := hus hr2
        rw [(usLoop_aux_eq hex isD hrange h95 ds h256 hmem).1] at husl
        exact husl
    · have hr1' : r.1 = loopVal base ds 0 := by rw [hr]
      rw [hfl, ← hr1']
      exact hr1
  · rintro ⟨hsep, hlit⟩
    have hmem := (aux_members isD ds).1 hsep
    have hfl : litValue base ds = loopVal base ds 0 :=
      filter_foldl_loopVal base isD hval ds h256 hmem 0
    have hlvmax : loopVal base ds 0 ≤ maxUint64 := by
      rw [← hfl]; exact Nat.le_trans hlit hlim
    refine ⟨(loopVal base ds 0, false || ds.any fun b => b = 95), ?_, ?_, ?_⟩
    · exact (parseUintLoop_some base hb ds 0 false (Nat.zero_le _) _).mpr
        ⟨hmem_to hmem, hlvmax, rfl⟩
    · intro _
      rw [(usLoop_aux_eq hex isD hrange h95 ds h256 hmem).1]
      exact hsep
    · show loopVal base ds 0 ≤ limit
      rw [← hfl]
      exact hlit

theorem prefDigits_eq_aux (isD : Nat → Bool) (ds : List Nat) (h : ds ≠ []) :
    prefDigits isD ds = sepDigitsAux isD ds := by
  match ds with
  | [] => exact absurd rfl h
  | b :: cs =>
    show (if b = 95 then sepDigits isD cs else sepDigits isD (b :: cs)) = _
    rw [sepDigitsAux_cons]
    by_cases hb : b = 95
    · subst hb
      rw [if_pos rfl, if_pos rfl]
      cases cs <;> rfl
    · rw [if_neg hb, if_neg hb]
      rfl

theorem underscoreOK_pref (p : Nat) (ds : List Nat)
    (hp : lowerByte p = 98 ∨ lowerByte p = 111 ∨ lowerByte p = 120) :
    underscoreOK (48 :: p :: ds) = underscoreOKLoop (lowerByte p = 120) ds Saw.digit := by
  show (if (48 : Nat) = 48 ∧ (lowerByte p = 98 ∨ lowerByte p = 111 ∨ lowerByte p = 120) then
        underscoreOKLoop (lowerByte p = 120) ds Saw.digit
      else underscoreOKLoop false (48 :: p :: ds) Saw.start) =
    underscoreOKLoop (lowerByte p = 120) ds Saw.digit
  rw [if_pos ⟨rfl, hp⟩]

theorem underscoreOK_start1 (b0 : Nat) (hs : ¬(b0 = 45 ∨ b0 = 43)) :
    underscoreOK [b0] = underscoreOKLoop false [b0] Saw.start := by
  show (match (if b0 = 45 ∨ b0 = 43 then ([] : List Nat) else [b0]) with
        | d0 :: d1 :: drest =>
          if d0 = 48 ∧ (lowerByte d1 = 98 ∨ lowerByte d1 = 111 ∨ lowerByte d1 = 120) then
            underscoreOKLoop (lowerByte d1 = 120) drest Saw.digit
          else underscoreOKLoop false (d0 :: d1 :: drest) Saw.start
        | s2 => underscoreOKLoop false s2 Saw.start) =
      underscoreOKLoop false [b0] Saw.start
  rw [if_neg hs]

theorem underscoreOK_start2 (b0 c1 : Nat) (rest : List Nat) (hs : ¬(b0 = 45 ∨ b0 = 43))
    (hnp : ¬(b0 = 48 ∧ (lowerByte c1 = 98 ∨ lowerByte c1 = 111 ∨ lowerByte c1 = 120))) :
    underscoreOK (b0 :: c1 :: rest) = underscoreOKLoop false (b0 :: c1 :: rest) Saw.start := by
  show (match (if b0 = 45 ∨ b0 = 43 then c1 :: rest else b0 :: c1 :: rest) with
        | d0 :: d1 :: drest =>
          if d0 = 48 ∧ (lowerByte d1 = 98 ∨ lowerByte d1 = 111 ∨ lowerByte d1 = 120) then
            underscoreOKLoop (lowerByte d1 = 120) drest Saw.digit
          else underscoreOKLoop false (d0 :: d1 :: drest) Saw.start
        | s2 => underscoreOKLoop false s2 Saw.start) =
      underscoreOKLoop false (b0 :: c1 :: rest) Saw.start
  rw [if_neg hs]
  exact if_neg hnp

theorem usLoop_start_digit (hex : Bool) (b : Nat) (tl : List Nat)
    (hd : 48 ≤ b ∧ b ≤ 57) :
    underscoreOKLoop hex (b :: tl) Saw.start = underscoreOKLoop hex tl Saw.digit := by
  simp only [underscoreOKLoop]
  rw [if_pos (Or.inl hd)]

theorem usLoop_start_95 (tl : List Nat) :
    underscoreOKLoop false (95 :: tl) Saw.start = false := by
  simp only [underscoreOKLoop]
  rw [if_neg (by decide), if_true, if_pos (by decide)]

theorem parseUintLoop_head_bad (base cutoff maxv c : Nat) (cs : List Nat) (n : Nat)
    (us : Bool) (hc : ¬ c = 95)
    (hbad : ((digitValue c).elim false fun d => decide (d < base)) = false) :
    parseUintLoop base cutoff maxv (c :: cs) n us = none := by
  simp only [parseUintLoop]
  rw [if_neg hc]
  cases h : digitValue c with
  | none => rfl
  | some d =>
    have hdec : decide (d < base) = false := by
      rw [h] at hbad
      simpa using hbad
    have hdb : base ≤ d := Nat.le_of_not_lt (of_decide_eq_false hdec)
    show (if base ≤ d then none
       else if cutoff ≤ n then none
       else if maxv < n * base + d then none
       else parseUintLoop base cutoff maxv cs (n * base + d) us) = none
    rw [if_pos hdb]

theorem parseUintGo_cons (b0 : Nat) (tl : List Nat) :
    parseUintGo (b0 :: tl) =
      (match parseUintLoop (baseDetect (b0 :: tl)).1
          (maxUint64 / (baseDetect (b0 :: tl)).1 + 1) maxUint64
          (baseDetect (b0 :: tl)).2 0 false with
       | none => none
       | some r => if r.2 ∧ underscoreOK (b0 :: tl) = false then none else some r.1) := rfl

theorem baseDetect_dec (b0 : Nat) (tl : List Nat) (h : ¬ b0 = 48) :
    baseDetect (b0 :: tl) = (10, b0 :: tl) := by
  show (if b0 = 48 then
        (match tl with
         | c :: rest =>
           if rest ≠ [] ∧ lowerByte c = 98 then (2, rest)
           else if rest ≠ [] ∧ lowerByte c = 111 then (8, rest)
           else if rest ≠ [] ∧ lowerByte c = 120 then (16, rest)
           else (8, tl)
         | [] => (8, ([] : List Nat)))
      else (10, b0 :: tl)) = (10, b0 :: tl)
  rw [if_neg h]

theorem usOK_decimal (b0 : Nat) (tl : List Nat) (h48 : ¬ b0 = 48)
    (h256 : ∀ b ∈ b0 :: tl, b < 256)
    (hmem : ∀ b ∈ b0 :: tl, b = 95 ∨ isDecByte b = true) :
    underscoreOK (b0 :: tl) = sepDigits isDecByte (b0 :: tl) := by
  have h256t : ∀ c ∈ tl, c < 256 := fun c hc => h256 c (List.mem_cons_of_mem _ hc)
  have hmemt : ∀ c ∈ tl, c = 95 ∨ isDecByte c = true :=
    fun c hc => hmem c (List.mem_cons_of_mem _ hc)
  have hrange : ∀ b : Nat, b < 256 → isDecByte b = true →
      (48 ≤ b ∧ b ≤ 57) ∨ ((false : Bool) = true ∧ 97 ≤ lowerByte b ∧ lowerByte b ≤ 102) :=
    fun b hb h => Or.inl ((byteRanges b hb).1 h)
  have h95 : isDecByte 95 = false := by decide
  have hstart : underscoreOK (b0 :: tl) = underscoreOKLoop false (b0 :: tl) Saw.start := by
    have hs : ¬(b0 = 45 ∨ b0 = 43) := by
      rcases hmem b0 (List.mem_cons_self b0 tl) with h | h
      · subst h; decide
      · have := (byteRanges b0 (h256 b0 (List.mem_cons_self b0 tl))).1 h
        omega
    cases tl with
    | nil => exact underscoreOK_start1 b0 hs
    | cons c1 rest => exact underscoreOK_start2 b0 c1 rest hs (fun hh => h48 hh.1)
  rw [hstart]
  rcases hmem b0 (List.mem_cons_self b0 tl) with hb | hb
  · subst hb
    rw [usLoop_start_95]
    show false = (isDecByte 95 && sepDigitsAux isDecByte tl)
    rw [h95, Bool.false_and]
  · have hd : 48 ≤ b0 ∧ b0 ≤ 57 :=
      (byteRanges b0 (h256 b0 (List.mem_cons_self b0 tl))).1 hb
    rw [usLoop_start_digit false b0 tl hd]
    rw [(usLoop_aux_eq false isDecByte hrange h95 tl h256t hmemt).1]
    show sepDigitsAux isDecByte tl = (isDecByte b0 && sepDigitsAux isDecByte tl)
    rw [hb, Bool.true_and]

theorem parseUintGo_dec_eq (b0 : Nat) (tl : List Nat) (h48 : ¬ b0 = 48) :
    parseUintGo (b0 :: tl) =
      (match parseUintLoop 10 (maxUint64 / 10 + 1) maxUint64 (b0 :: tl) 0 false with
       | none => none
       | some r =>
         if r.2 ∧ underscoreOK (b0 :: tl) = false then none else some r.1) := by
  rw [parseUintGo_cons, baseDetect_dec b0 tl h48]

theorem parseUintGo_dec (limit : Nat) (hlim : limit ≤ maxUint64) (b0 : Nat)
    (tl : List Nat) (h48 : ¬ b0 = 48) (h256 : ∀ b ∈ b0 :: tl, b < 256) :
    (∃ un, parseUintGo (b0 :: tl) = some un ∧ un ≤ limit) ↔
      (sepDigits isDecByte (b0 :: tl) = true ∧ litValue 10 (b0 :: tl) ≤ limit) := by
  have hcls : ∀ b : Nat, b < 256 →
      ((digitValue b).elim false fun d => decide (d < 10)) = isDecByte b :=
    fun b hb => (byteClasses b hb).1
  have hval : ∀ b : Nat, b < 256 → isDecByte b = true →
      byteVal b = (digitValue b).getD 0 :=
    fun b hb h => (byteValues b hb).1 ((byteValues b hb).2.1 h)
  have hmem_of : DigitsOK 10 (b0 :: tl) →
      ∀ b ∈ b0 :: tl, b = 95 ∨ isDecByte b = true := by
    intro hd b hbm
    rcases hd b hbm with h | h
    · exact Or.inl h
    · exact Or.inr (by rw [← hcls b (h256 b hbm)]; exact (elim_digit_iff b 10).mpr h)
  have hmem_to : (∀ b ∈ b0 :: tl, b = 95 ∨ isDecByte b = true) →
      DigitsOK 10 (b0 :: tl) := by
    intro hm b hbm
    rcases hm b hbm with h | h
    · exact Or.inl h
    · exact Or.inr ((elim_digit_iff b 10).mp (by rw [hcls b (h256 b hbm)]; exact h))
  rw [parseUintGo_dec_eq b0 tl h48]
  constructor
  · rintro ⟨un, hun, hle⟩
    cases hl : parseUintLoop 10 (maxUint64 / 10 + 1) maxUint64 (b0 :: tl) 0 false with
    | none =>
      rw [hl] at hun
      simp at hun
    | some r =>
      rw [hl] at hun
      have hun' : (if r.2 ∧ underscoreOK (b0 :: tl) = false then none
          else some r.1) = some un := hun
      obtain ⟨hd, hlv, hr⟩ :=
        (parseUintLoop_some 10 (by decide) (b0 :: tl) 0 false (Nat.zero_le _) r).mp hl
      have hmem := hmem_of hd
      have husd := usOK_decimal b0 tl h48 h256 hmem
      have hfl : litValue 10 (b0 :: tl) = loopVal 10 (b0 :: tl) 0 :=
        filter_foldl_loopVal 10 isDecByte hval (b0 :: tl) h256 hmem 0
      by_cases hif : r.2 = true ∧ underscoreOK (b0 :: tl) = false
      · rw [if_pos hif] at hun'
        cases hun'
      · rw [if_neg hif] at hun'
        have hr1 : r.1 = un := Option.some.inj hun'
      -- value part first
        have hr1v : r.1 = loopVal 10 (b0 :: tl) 0 := by rw [hr]
        refine ⟨?_, by rw [hfl, ← hr1v, hr1]; exact hle⟩
        have hr2eq : r.2 = ((b0 :: tl).any fun b => b = 95) := by
          rw [hr]
          exact Bool.false_or _
        cases hr2 : r.2 with
        | true =>
          have hus : underscoreOK (b0 :: tl) = true := by
            cases hu : underscoreOK (b0 :: tl) with
            | false => exact absurd ⟨hr2, hu⟩ hif
            | true => rfl
          rw [husd] at hus
          exact hus
        | false =>
          have hany : ((b0 :: tl).any fun b => b = 95) = false := by
            rw [← hr2eq]; exact hr2
          have hb95 : ¬ b0 = 95 := by
            rw [List.any_cons, Bool.or_eq_false_iff] at hany
            intro h
            rw [h] at hany
            exact absurd hany.1 (by decide)
          have := aux_of_no95 isDecByte (b0 :: tl) hmem hany
          rw [sepDigitsAux_cons, if_neg hb95] at this
          exact this
  · rintro ⟨hsep, hlit⟩
    have hmem := (aux_members isDecByte (b0 :: tl)).2 hsep
    have husd := usOK_decimal b0 tl h48 h256 hmem
    have hfl : litValue 10 (b0 :: tl) = loopVal 10 (b0 :: tl) 0 :=
      filter_foldl_loopVal 10 isDecByte hval (b0 :: tl) h256 hmem 0
    have hlvmax : loopVal 10 (b0 :: tl) 0 ≤ maxUint64 := by
      rw [← hfl]; exact Nat.le_trans hlit hlim
    have hloopeq : parseUintLoop 10 (maxUint64 / 10 + 1) maxUint64 (b0 :: tl) 0 false =
        some (loopVal 10 (b0 :: tl) 0, false || (b0 :: tl).any fun b => b = 95) :=
      (parseUintLoop_some 10 (by decide) (b0 :: tl) 0 false (Nat.zero_le _) _).mpr
        ⟨hmem_to hmem, hlvmax, rfl⟩
    refine ⟨loopVal 10 (b0 :: tl) 0, ?_, by rw [← hfl]; exact hlit⟩
    rw [hloopeq]
    have hcond : ¬((false || (b0 :: tl).any fun b => b = 95) = true
        ∧ underscoreOK (b0 :: tl) = false) := by
      rintro ⟨-, hfalse⟩
      rw [husd, hsep] at hfalse
      cases hfalse
    show (if (false || (b0 :: tl).any fun b => b = 95) = true
        ∧ underscoreOK (b0 :: tl) = false then none
      else some (loopVal 10 (b0 :: tl) 0)) = some (loopVal 10 (b0 :: tl) 0)
    rw [if_neg hcond]

theorem parseUintGo_pipe (base : Nat) (hb : 2 ≤ base) (isD : Nat → Bool) (hex : Bool)
    (hcls : ∀ b : Nat, b < 256 →
      ((digitValue b).elim false fun d => decide (d < base)) = isD b)
    (hrange : ∀ b : Nat, b < 256 → isD b = true →
      (48 ≤ b ∧ b ≤ 57) ∨ (hex = true ∧ 97 ≤ lowerByte b ∧ lowerByte b ≤ 102))
    (hval : ∀ b : Nat, b < 256 → isD b = true → byteVal b = (digitValue b).getD 0)
    (h95 : isD 95 = false)
    (limit : Nat) (hlim : limit ≤ maxUint64)
    (s ds : List Nat) (h256 : ∀ b ∈ ds, b < 256)
    (heq : parseUintGo s =
      (match parseUintLoop base (maxUint64 / base + 1) maxUint64 ds 0 false with
       | none => none
       | some r => if r.2 ∧ underscoreOK s = false then none else some r.1))
    (hus : underscoreOK s = underscoreOKLoop hex ds Saw.digit) :
    (∃ un, parseUintGo s = some un ∧ un ≤ limit) ↔
      (sepDigitsAux isD ds = true ∧ litValue base ds ≤ limit) := by
  rw [heq, ← digitsPipeline base hb isD hex hcls hrange hval h95 limit hlim ds h256]
  constructor
  · rintro ⟨un, hun, hle⟩
    cases hl : parseUintLoop base (maxUint64 / base + 1) maxUint64 ds 0 false with
    | none =>
      rw [hl] at hun
      simp at hun
    | some r =>
      rw [hl] at hun
      have hun' : (if r.2 ∧ underscoreOK s = false then none
          else some r.1) = some un := hun
      by_cases hif : r.2 = true ∧ underscoreOK s = false
      · rw [if_pos hif] at hun'
        cases hun'
      · rw [if_neg hif] at hun'
        refine ⟨r, rfl, ?_, ?_⟩
        · intro hr2
          rw [← hus]
          cases hu : underscoreOK s with
          | false => exact absurd ⟨hr2, hu⟩ hif
          | true => rfl
        · rw [Option.some.inj hun']
          exact hle
  · rintro ⟨r, hl, hr2, hr1⟩
    refine ⟨r.1, ?_, hr1⟩
    rw [hl]
    have hcond : ¬(r.2 = true ∧ underscoreOK s = false) := by
      rintro ⟨h2, hfalse⟩
      rw [hus, hr2 h2] at hfalse
      cases hfalse
    show (if r.2 = true ∧ underscoreOK s = false then none else some r.1) = some r.1
    rw [if_neg hcond]

theorem baseDetect_cons48 (tl : List Nat) :
    baseDetect (48 :: tl) =
      (match tl with
       | c :: rest =>
         if rest ≠ [] ∧ lowerByte c = 98 then (2, rest)
         else if rest ≠ [] ∧ lowerByte c = 111 then (8, rest)
         else if rest ≠ [] ∧ lowerByte c = 120 then (16, rest)
         else (8, tl)
       | [] => (8, ([] : List Nat))) := rfl

theorem baseDetect_pref_b (p : Nat) (ds : List Nat) (hne : ds ≠ [])
    (hlp : lowerByte p = 98) : baseDetect (48 :: p :: ds) = (2, ds) := by
  rw [baseDetect_cons48]
  show (if ds ≠ [] ∧ lowerByte p = 98 then (2, ds)
      else if ds ≠ [] ∧ lowerByte p = 111 then (8, ds)
      else if ds ≠ [] ∧ lowerByte p = 120 then (16, ds)
      else (8, p :: ds)) = (2, ds)
  rw [if_pos ⟨hne, hlp⟩]

theorem baseDetect_pref_o (p : Nat) (ds : List Nat) (hne : ds ≠ [])
    (hlp : lowerByte p = 111) : baseDetect (48 :: p :: ds) = (8, ds) := by
  rw [baseDetect_cons48]
  show (if ds ≠ [] ∧ lowerByte p = 98 then (2, ds)
      else if ds ≠ [] ∧ lowerByte p = 111 then (8, ds)
      else if ds ≠ [] ∧ lowerByte p = 120 then (16, ds)
      else (8, p :: ds)) = (8, ds)
  rw [if_neg (fun hh => by rw [hlp] at hh; exact absurd hh.2 (by decide)),
    if_pos ⟨hne, hlp⟩]

theorem baseDetect_pref_x (p : Nat) (ds : List Nat) (hne : ds ≠ [])
    (hlp : lowerByte p = 120) : baseDetect (48 :: p :: ds) = (16, ds) := by
  rw [baseDetect_cons48]
  show (if ds ≠ [] ∧ lowerByte p = 98 then (2, ds)
      else if ds ≠ [] ∧ lowerByte p = 111 then (8, ds)
      else if ds ≠ [] ∧ lowerByte p = 120 then (16, ds)
      else (8, p :: ds)) = (16, ds)
  rw [if_neg (fun hh => by rw [hlp] at hh; exact absurd hh.2 (by decide)),
    if_neg (fun hh => by rw [hlp] at hh; exact absurd hh.2 (by decide)),
    if_pos ⟨hne, hlp⟩]

theorem baseDetect_legacy (p : Nat) (ds : List Nat)
    (h1 : ¬(ds ≠ [] ∧ lowerByte p = 98))
    (h2 : ¬(ds ≠ [] ∧ lowerByte p = 111))
    (h3 : ¬(ds ≠ [] ∧ lowerByte p = 120)) :
    baseDetect (48 :: p :: ds) = (8, p :: ds) := by
  rw [baseDetect_cons48]
  show (if ds ≠ [] ∧ lowerByte p = 98 then (2, ds)
      else if ds ≠ [] ∧ lowerByte p = 111 then (8, ds)
      else if ds ≠ [] ∧ lowerByte p = 120 then (16, ds)
      else (8, p :: ds)) = (8, p :: ds)
  rw [if_neg h1, if_neg h2, if_neg h3]

theorem goIntBody_dec (limit b0 : Nat) (tl : List Nat) (h48 : ¬ b0 = 48) :
    goIntBody limit (b0 :: tl) =
      (sepDigits isDecByte (b0 :: tl) && decide (litValue 10 (b0 :: tl) ≤ limit)) := by
  show (if b0 = 48 then
        (match tl with
         | [] => true
         | p :: ds =>
           if (p = 98 ∨ p = 66) ∧ ds ≠ [] then
             prefDigits isBinByte ds && decide (litValue 2 ds ≤ limit)
           else if (p = 111 ∨ p = 79) ∧ ds ≠ [] then
             prefDigits isOctByte ds && decide (litValue 8 ds ≤ limit)
           else if (p = 120 ∨ p = 88) ∧ ds ≠ [] then
             prefDigits isHexByte ds && decide (litValue 16 ds ≤ limit)
           else sepDigitsAux isOctByte tl && decide (litValue 8 tl ≤ limit))
      else sepDigits isDecByte (b0 :: tl) && decide (litValue 10 (b0 :: tl) ≤ limit)) =
    (sepDigits isDecByte (b0 :: tl) && decide (litValue 10 (b0 :: tl) ≤ limit))
  rw [if_neg h48]

theorem goIntBody_pref (limit p : Nat) (ds : List Nat) :
    goIntBody limit (48 :: p :: ds) =
      (if (p = 98 ∨ p = 66) ∧ ds ≠ [] then
        prefDigits isBinByte ds && decide (litValue 2 ds ≤ limit)
      else if (p = 111 ∨ p = 79) ∧ ds ≠ [] then
        prefDigits isOctByte ds && decide (litValue 8 ds ≤ limit)
      else if (p = 120 ∨ p = 88) ∧ ds ≠ [] then
        prefDigits isHexByte ds && decide (litValue 16 ds ≤ limit)
      else sepDigitsAux isOctByte (p :: ds) && decide (litValue 8 (p :: ds) ≤ limit)) := rfl

theorem parseUintGo_goIntBody (limit : Nat) (hlim : limit ≤ maxUint64) :
    ∀ body : List Nat, (∀ b ∈ body, b < 256) →
      ((∃ un, parseUintGo body = some un ∧ un ≤ limit) ↔ goIntBody limit body = true) := by
  intro body h256
  cases body with
  | nil => simp [parseUintGo, goIntBody]
  | cons b0 tl =>
    by_cases h48 : b0 = 48
    · subst h48
      cases tl with
      | nil =>
        constructor
        · intro _
          rfl
        · intro _
          exact ⟨0, rfl, Nat.zero_le _⟩
      | cons p ds =>
        have hp256 : p < 256 := h256 p (List.mem_cons_of_mem _ (List.mem_cons_self p ds))
        have h256ds : ∀ b ∈ ds, b < 256 := fun b hb =>
          h256 b (List.mem_cons_of_mem _ (List.mem_cons_of_mem _ hb))
        have h256pds : ∀ b ∈ p :: ds, b < 256 := fun b hb =>
          h256 b (List.mem_cons_of_mem _ hb)
        rw [goIntBody_pref limit p ds]
        by_cases hc1 : (p = 98 ∨ p = 66) ∧ ds ≠ []
        · rw [if_pos hc1, Bool.and_eq_true, decide_eq_true_eq,
            prefDigits_eq_aux isBinByte ds hc1.2]
          have hlp : lowerByte p = 98 := (bytePrefixes p hp256).1.mpr hc1.1
          refine parseUintGo_pipe 2 (by decide) isBinByte false
            (fun b hb => (byteClasses b hb).2.2.1)
            (fun b hb h => Or.inl ((byteRanges b hb).2.2.1 h))
            (fun b hb h => (byteValues b hb).1 ((byteValues b hb).2.2.2.1 h))
            (by decide) limit hlim (48 :: p :: ds) ds h256ds ?_ ?_
          · rw [parseUintGo_cons, baseDetect_pref_b p ds hc1.2 hlp]
          · rw [underscoreOK_pref p ds (Or.inl hlp), hlp]
            rfl
        · rw [if_neg hc1]
          by_cases hc2 : (p = 111 ∨ p = 79) ∧ ds ≠ []
          · rw [if_pos hc2, Bool.and_eq_true, decide_eq_true_eq,
              prefDigits_eq_aux isOctByte ds hc2.2]
            have hlp : lowerByte p = 111 := (bytePrefixes p hp256).2.1.mpr hc2.1
            refine parseUintGo_pipe 8 (by decide) isOctByte false
              (fun b hb => (byteClasses b hb).2.1)
              (fun b hb h => Or.inl ((byteRanges b hb).2.1 h))
              (fun b hb h => (byteValues b hb).1 ((byteValues b hb).2.2.1 h))
              (by decide) limit hlim (48 :: p :: ds) ds h256ds ?_ ?_
            · rw [parseUintGo_cons, baseDetect_pref_o p ds hc2.2 hlp]
            · rw [underscoreOK_pref p ds (Or.inr (Or.inl hlp)), hlp]
              rfl
          · rw [if_neg hc2]
            by_cases hc3 : (p = 120 ∨ p = 88) ∧ ds ≠ []
            · rw [if_pos hc3, Bool.and_eq_true, decide_eq_true_eq,
                prefDigits_eq_aux isHexByte ds hc3.2]
              have hlp : lowerByte p = 120 := (bytePrefixes p hp256).2.2.1.mpr hc3.1
              refine parseUintGo_pipe 16 (by decide) isHexByte true
                (fun b hb => (byteClasses b hb).2.2.2)
                (fun b hb h =>
                  ((byteRanges b hb).2.2.2 h).imp id (fun hh => ⟨rfl, hh⟩))
                (fun b hb h => (byteValues b hb).1 h)
                (by decide) limit hlim (48 :: p :: ds) ds h256ds ?_ ?_
              · rw [parseUintGo_cons, baseDetect_pref_x p ds hc3.2 hlp]
              · rw [underscoreOK_pref p ds (Or.inr (Or.inr hlp)), hlp]
                rfl
            · rw [if_neg hc3, Bool.and_eq_true, decide_eq_true_eq]
              by_cases hlpx : lowerByte p = 98 ∨ lowerByte p = 111 ∨ lowerByte p = 120
              · have hds : ds = [] := by
                  by_contra hne
                  rcases hlpx with h | h | h
                  · exact hc1 ⟨(bytePrefixes p hp256).1.mp h, hne⟩
                  · exact hc2 ⟨(bytePrefixes p hp256).2.1.mp h, hne⟩
                  · exact hc3 ⟨(bytePrefixes p hp256).2.2.1.mp h, hne⟩
                subst hds
                have hoct : isOctByte p = false := (bytePrefixes p hp256).2.2.2 hlpx
                have hp95 : ¬ p = 95 := by
                  rcases hlpx with h | h | h <;>
                    (intro hp; rw [hp] at h; exact absurd h (by decide))
                apply iff_of_false
                · rintro ⟨un, hun, -⟩
                  have hbad : parseUintLoop 8 (maxUint64 / 8 + 1) maxUint64 [p] 0 false =
                      none :=
                    parseUintLoop_head_bad 8 (maxUint64 / 8 + 1) maxUint64 p [] 0 false
                      hp95 (by rw [(byteClasses p hp256).2.1]; exact hoct)
                  rw [parseUintGo_cons, baseDetect_legacy p []
                    (fun hh => hh.1 rfl) (fun hh => hh.1 rfl) (fun hh => hh.1 rfl)] at hun
                  have hun2 : (match parseUintLoop 8 (maxUint64 / 8 + 1) maxUint64 [p]
                        0 false with
                     | none => none
                     | some r =>
                       if r.2 ∧ underscoreOK (48 :: p :: []) = false then none
                       else some r.1) = some un := hun
                  rw [hbad] at hun2
                  have hun3 : (none : Option Nat) = some un := hun2
                  cases hun3
                · rintro ⟨haux, -⟩
                  rw [sepDigitsAux_cons, if_neg hp95, hoct, Bool.false_and] at haux
                  cases haux
              · have hb1 : ¬(ds ≠ [] ∧ lowerByte p = 98) := fun hh => hlpx (Or.inl hh.2)
                have hb2 : ¬(ds ≠ [] ∧ lowerByte p = 111) :=
                  fun hh => hlpx (Or.inr (Or.inl hh.2))
                have hb3 : ¬(ds ≠ [] ∧ lowerByte p = 120) :=
                  fun hh => hlpx (Or.inr (Or.inr hh.2))
                refine parseUintGo_pipe 8 (by decide) isOctByte false
                  (fun b hb => (byteClasses b hb).2.1)
                  (fun b hb h => Or.inl ((byteRanges b hb).2.1 h))
                  (fun b hb h => (byteValues b hb).1 ((byteValues b hb).2.2.1 h))
                  (by decide) limit hlim (48 :: p :: ds) (p :: ds) h256pds ?_ ?_
                · rw [parseUintGo_cons, baseDetect_legacy p ds hb1 hb2 hb3]
                · rw [underscoreOK_start2 48 p ds (by decide) (fun hh => hlpx hh.2),
                    usLoop_start_digit false 48 (p :: ds) (by decide)]
    · rw [goIntBody_dec limit b0 tl h48, Bool.and_eq_true, decide_eq_true_eq]
      exact parseUintGo_dec limit hlim b0 tl h48 h256

theorem parseIntGo_cons (c : Nat) (rest : List Nat) :
    parseIntGo (c :: rest) =
      (match parseUintGo (if c = 43 ∨ c = 45 then rest else c :: rest) with
       | none => none
       | some un =>
         if ¬(c = 45) ∧ 2 ^ 63 ≤ un then none
         else if (c = 45) ∧ 2 ^ 63 < un then none
         else some (if c = 45 then -(un : Int) else (un : Int))) := rfl

theorem parseIntGo_body_isSome (c : Nat) (body : List Nat)
    (h256b : ∀ b ∈ body, b < 256) :
    (match parseUintGo body with
     | none => (none : Option Int)
     | some un =>
       if ¬(c = 45) ∧ 2 ^ 63 ≤ un then none
       else if (c = 45) ∧ 2 ^ 63 < un then none
       else some (if c = 45 then -(un : Int) else (un : Int))).isSome =
      goIntBody (if c = 45 then 2 ^ 63 else 2 ^ 63 - 1) body := by
  have hlim : (if c = 45 then (2 : Nat) ^ 63 else 2 ^ 63 - 1) ≤ maxUint64 := by
    by_cases h : c = 45
    · rw [if_pos h]; decide
    · rw [if_neg h]; decide
  have hiff := parseUintGo_goIntBody (if c = 45 then 2 ^ 63 else 2 ^ 63 - 1) hlim
    body h256b
  cases hu : parseUintGo body with
  | none =>
    rw [hu] at hiff
    show false = goIntBody (if c = 45 then 2 ^ 63 else 2 ^ 63 - 1) body
    cases hgb : goIntBody (if c = 45 then 2 ^ 63 else 2 ^ 63 - 1) body with
    | false => rfl
    | true =>
      obtain ⟨un, hun, -⟩ := hiff.mpr hgb
      cases hun
  | some un =>
    rw [hu] at hiff
    have hiff2 : un ≤ (if c = 45 then 2 ^ 63 else 2 ^ 63 - 1) ↔
        goIntBody (if c = 45 then 2 ^ 63 else 2 ^ 63 - 1) body = true := by
      rw [← hiff]
      constructor
      · intro h
        exact ⟨un, rfl, h⟩
      · rintro ⟨un', hh, h⟩
        cases Option.some.inj hh
        exact h
    show (if ¬(c = 45) ∧ 2 ^ 63 ≤ un then (none : Option Int)
      else if (c = 45) ∧ 2 ^ 63 < un then none
      else some (if c = 45 then -(un : Int) else (un : Int))).isSome =
        goIntBody (if c = 45 then 2 ^ 63 else 2 ^ 63 - 1) body
    by_cases h45 : c = 45
    · have hl : (if c = 45 then (2 : Nat) ^ 63 else 2 ^ 63 - 1) = 2 ^ 63 := if_pos h45
      rw [if_neg (fun hh => hh.1 h45)]
      by_cases hun63 : 2 ^ 63 < un
      · rw [if_pos ⟨h45, hun63⟩]
        show false = goIntBody (if c = 45 then 2 ^ 63 else 2 ^ 63 - 1) body
        cases hgb : goIntBody (if c = 45 then 2 ^ 63 else 2 ^ 63 - 1) body with
        | false => rfl
        | true =>
          have hle := hiff2.mpr hgb
          rw [hl] at hle
          exact absurd hun63 (Nat.not_lt.mpr hle)
      · rw [if_neg (fun hh => hun63 hh.2)]
        show true = goIntBody (if c = 45 then 2 ^ 63 else 2 ^ 63 - 1) body
        exact (hiff2.mp (by rw [hl]; exact Nat.le_of_not_lt hun63)).symm
    · have hl : (if c = 45 then (2 : Nat) ^ 63 else 2 ^ 63 - 1) = 2 ^ 63 - 1 :=
        if_neg h45
      by_cases hun63 : 2 ^ 63 ≤ un
      · rw [if_pos ⟨h45, hun63⟩]
        show false = goIntBody (if c = 45 then 2 ^ 63 else 2 ^ 63 - 1) body
        cases hgb : goIntBody (if c = 45 then 2 ^ 63 else 2 ^ 63 - 1) body with
        | false => rfl
        | true =>
          have hle := hiff2.mpr hgb
          rw [hl] at hle
          exact absurd hun63
            (Nat.not_le.mpr (Nat.lt_of_le_of_lt hle (by decide)))
      · rw [if_neg (fun hh => hun63 hh.2), if_neg (fun hh => h45 hh.1)]
        show true = goIntBody (if c = 45 then 2 ^ 63 else 2 ^ 63 - 1) body
        refine (hiff2.mp ?_).symm
        rw [hl]
        exact Nat.le_pred_of_lt (Nat.lt_of_not_le hun63)

theorem parseIntGo_isSome (s : List Nat) (h256 : ∀ b ∈ s, b < 256) :
    (parseIntGo s).isSome = goIntLiteral s := by
  cases s with
  | nil => rfl
  | cons c rest =>
    have h256b : ∀ b ∈ (if c = 43 ∨ c = 45 then rest else c :: rest), b < 256 := by
      by_cases h : c = 43 ∨ c = 45
      · rw [if_pos h]
        exact fun b hb => h256 b (List.mem_cons_of_mem _ hb)
      · rw [if_neg h]
        exact h256
    have hgl : goIntLiteral (c :: rest) =
        goIntBody (if c = 45 then 2 ^ 63 else 2 ^ 63 - 1)
          (if c = 43 ∨ c = 45 then rest else c :: rest) := rfl
    rw [parseIntGo_cons, hgl]
    exact parseIntGo_body_isSome c (if c = 43 ∨ c = 45 then rest else c :: rest) h256b

theorem basicLit_lowered (s : LowerState) (v : List Nat) :
    ∃ nd, loweredNode s (SurfaceNode.basicLit v) = some nd
      ∧ nd.ident = v ∧ nd.val = basicLitValue v := by
  obtain ⟨nd0, hh, hg, -⟩ := pushNew_props s s.stack.head? Kind.BasicLit Action.Nop
  have hg' : (addChild s s.stack.head? Kind.BasicLit Action.Nop).1.nodes[s.nodes.length]?
      = some nd0 := hg
  have hsnd := addChild_snd s s.stack.head? Kind.BasicLit Action.Nop
  have hset : setIdentVal (addChild s s.stack.head? Kind.BasicLit Action.Nop).1
      s.nodes.length v (basicLitValue v) =
      { (addChild s s.stack.head? Kind.BasicLit Action.Nop).1 with
        nodes := (addChild s s.stack.head? Kind.BasicLit Action.Nop).1.nodes.set
          s.nodes.length { nd0 with ident := v, val := basicLitValue v } } := by
    unfold setIdentVal
    rw [hg']
  have hstep : inspectStep s (some (SurfaceNode.basicLit v)) =
      { setIdentVal (addChild s s.stack.head? Kind.BasicLit Action.Nop).1
          s.nodes.length v (basicLitValue v) with
        stack := s.nodes.length ::
          (setIdentVal (addChild s s.stack.head? Kind.BasicLit Action.Nop).1
            s.nodes.length v (basicLitValue v)).stack } := by
    show { setIdentVal (addChild s s.stack.head? Kind.BasicLit Action.Nop).1
          (addChild s s.stack.head? Kind.BasicLit Action.Nop).2 v (basicLitValue v) with
        stack := (addChild s s.stack.head? Kind.BasicLit Action.Nop).2 ::
          (setIdentVal (addChild s s.stack.head? Kind.BasicLit Action.Nop).1
            (addChild s s.stack.head? Kind.BasicLit Action.Nop).2 v
            (basicLitValue v)).stack } = _
    rw [hsnd]
  refine ⟨{ nd0 with ident := v, val := basicLitValue v }, ?_, rfl, rfl⟩
  unfold loweredNode
  rw [hstep, hset]
  show ((addChild s s.stack.head? Kind.BasicLit Action.Nop).1.nodes.set
      s.nodes.length { nd0 with ident := v, val := basicLitValue v })[s.nodes.length]?
    = some { nd0 with ident := v, val := basicLitValue v }
  refine List.getElem?_set_self ?_
  rw [addChild_nodes_length]
  omega

/-- C3: lowering a BasicLit stores the lexeme in `ident` and populates `val`:
`val` is a parsed integer exactly when the lexeme matches the amended
integer-literal shape (optional sign; then a decimal run, a legacy leading-0
octal run, or a 0b/0o/0x-prefixed run of that base; single underscores
between digits and after the prefix; value within the signed 64-bit range),
and is the original lexeme string otherwise.  Bytes of a Go string are below
256. -/
theorem basicLit_val_characterization (s : LowerState) (v : List Nat)
    (h256 : ∀ b ∈ v, b < 256) :
    ∃ nd : NodeData, loweredNode s (SurfaceNode.basicLit v) = some nd
      ∧ nd.ident = v
      ∧ ((∃ n : Int, nd.val = Val.int n) ↔ goIntLiteral v = true)
      ∧ (goIntLiteral v = false → nd.val = Val.str v) := by
  obtain ⟨nd, hln, hid, hval⟩ := basicLit_lowered s v
  have hiso := parseIntGo_isSome v h256
  refine ⟨nd, hln, hid, ?_, ?_⟩
  · constructor
    · rintro ⟨n, hn⟩
      rw [hval] at hn
      unfold basicLitValue at hn
      cases hp : parseIntGo v with
      | none =>
        rw [hp] at hn
        cases hn
      | some m =>
        rw [← hiso, hp]
        rfl
    · intro hgl
      rw [← hiso] at hgl
      cases hp : parseIntGo v with
      | none =>
        rw [hp] at hgl
        cases hgl
      | some m =>
        refine ⟨m, ?_⟩
        rw [hval]
        unfold basicLitValue
        rw [hp]
  · intro hgl
    rw [← hiso] at hgl
    cases hp : parseIntGo v with
    | some m =>
      rw [hp] at hgl
      cases hgl
    | none =>
      rw [hval]
      unfold basicLitValue
      rw [hp]

/-- Witness for C3 at the lexeme "42" (bytes 52, 50) in the initial state. -/
theorem basicLit_val_characterization_witness :
    (∀ b ∈ [52, 50], b < 256)
    ∧ (∃ nd : NodeData,
        loweredNode initState (SurfaceNode.basicLit [52, 50]) = some nd
        ∧ nd.ident = [52, 50]
        ∧ ((∃ n : Int, nd.val = Val.int n) ↔ goIntLiteral [52, 50] = true)
        ∧ (goIntLiteral [52, 50] = false → nd.val = Val.str [52, 50])) :=
  ⟨by decide, basicLit_val_characterization initState [52, 50] (by decide)⟩

/-- Counterexample to C3 as stated: the lexeme "18446744073709551616"
(2^64, bytes below) is a signed-integer literal in base 10 in the claim's
sense, yet `strconv.ParseInt` fails on it with a range error, so the lowered
node's `val` holds the original string, not a parsed integer. -/
theorem basicLit_claim_cex :
    specIntLiteral
        [49, 56, 52, 52, 54, 55, 52, 52, 48, 55, 51, 55, 48, 57, 53, 53, 49, 54, 49, 54]
      = true
    ∧ (loweredNode initState (SurfaceNode.basicLit
          [49, 56, 52, 52, 54, 55, 52, 52, 48, 55, 51, 55, 48, 57, 53, 53, 49, 54, 49, 54])).map
        NodeData.val
      = some (Val.str
          [49, 56, 52, 52, 54, 55, 52, 52, 48, 55, 51, 55, 48, 57, 53, 53, 49, 54, 49, 54]) := by
  constructor
  · decide
  · decide
